import Mathlib

/-!
# stash-explorer: the domain parsers and the application state machine

A shallow embedding of `git.go` (parsers and data-source functions) and of
`model.go` (the Bubble Tea model and its `Update` function), followed by the
theorems proved about them.

Conventions of the embedding

* A Go `string` is the list of its Unicode code points (`Str`); the text
  handled is taken to be valid UTF-8, so that byte offsets returned by
  `strings.Index` and slices taken at them correspond to positions in the
  list.  Every separator the program searches for is ASCII.
* A Go `int` is 64 bits wide.
* A Go `error` is `Option Str`: `none` is `nil`, `some msg` an error value.
* The functions of the Go standard library the program calls (`strings`,
  `strconv`, `fmt`) are modelled after their documented behaviour.
* The widgets of the UI library (`list.Model`, `viewport.Model`) are
  abstract: the program is parametrised by their operations (`Widgets`).
-/

namespace StashExplorer

/-! ## Strings (Go `strings`, `strconv`, `fmt`) -/

/-- A Go string. -/
abbrev Str := List Char

/-- Go `unicode.IsSpace`: the white-space code points. -/
def isSpace (c : Char) : Bool :=
  let n := c.toNat
  n == 0x09 || n == 0x0A || n == 0x0B || n == 0x0C || n == 0x0D || n == 0x20 ||
  n == 0x85 || n == 0xA0 || n == 0x1680 || (0x2000 ≤ n && n ≤ 0x200A) ||
  n == 0x2028 || n == 0x2029 || n == 0x202F || n == 0x205F || n == 0x3000

/-- Go `strings.TrimSpace`: all leading and trailing white space removed. -/
def TrimSpace (s : Str) : Str :=
  (s.dropWhile isSpace).rdropWhile isSpace

/-- Go `strings.HasPrefix`. -/
def HasPrefix (s p : Str) : Bool := p.isPrefixOf s

/-- Go `strings.TrimPrefix`: `s` without the leading `p`, or `s` itself when
`s` does not start with `p`. -/
def TrimPrefix (s p : Str) : Str :=
  if HasPrefix s p then s.drop p.length else s

/-- The search loop of `strings.Index`: `i` is the offset of `s` in the
string searched. -/
def indexFrom (sep : Str) : Str → Nat → Int
  | [], i => if sep = [] then (i : Int) else -1
  | c :: cs, i => if sep.isPrefixOf (c :: cs) then (i : Int) else indexFrom sep cs (i + 1)

/-- Go `strings.Index`: the offset of the first instance of `sep` in `s`, or
`-1` when there is none. -/
def Index (s sep : Str) : Int := indexFrom sep s 0

/-- The loop of `strings.Count` for a non-empty `sep`, bounded by `fuel`
iterations. -/
def countLoop (sep : Str) : Nat → Str → Nat
  | 0, _ => 0
  | fuel + 1, s =>
    let i := Index s sep
    if i = -1 then 0 else 1 + countLoop sep fuel (s.drop (i.toNat + sep.length))

/-- Go `strings.Count`: the number of non-overlapping instances of `sep` in
`s` (one more than the number of code points when `sep` is empty).  Each
iteration removes at least one character, so `len(s) + 1` iterations are
enough. -/
def Count (s sep : Str) : Nat :=
  if sep = [] then s.length + 1 else countLoop sep (s.length + 1) s

/-- The loop of Go `genSplit` for a non-empty separator: at most `k` cuts,
the last piece is the unsplit remainder. -/
def splitLoop (sep : Str) : Nat → Str → List Str
  | 0, s => [s]
  | k + 1, s =>
    let m := Index s sep
    if m < 0 then [s]
    else s.take m.toNat :: splitLoop sep k (s.drop (m.toNat + sep.length))

/-- Go `strings.SplitN(s, sep, n)`: `n = 0` gives no piece, `n > 0` at most
`n` pieces, `n < 0` all pieces.  An empty separator splits after each code
point. -/
def SplitN (s sep : Str) (n : Int) : List Str :=
  if n = 0 then []
  else if sep = [] then
    (if n < 0 then s.map (fun c => [c])
     else (s.take (n.toNat - 1)).map (fun c => [c]) ++
       (if s.drop (n.toNat - 1) = [] then [] else [s.drop (n.toNat - 1)]))
  else if n < 0 then splitLoop sep (Count s sep) s
  else splitLoop sep (n.toNat - 1) s

/-- Go `strings.Split(s, sep)`, which is `SplitN(s, sep, -1)`. -/
def Split (s sep : Str) : List Str := SplitN s sep (-1)

/-- Go `strings.Join` with the separator `sep`. -/
def Join : List Str → Str → Str
  | [], _ => []
  | [a], _ => a
  | a :: b :: rest, sep => a ++ sep ++ Join (b :: rest) sep

/-- The error kinds of `strconv`. -/
inductive NumError where
  | errSyntax
  | errRange
  deriving DecidableEq, Repr

/-- Whether `c` is one of the ASCII digits `0` to `9`. -/
def isDigit (c : Char) : Bool := 48 ≤ c.toNat && c.toNat ≤ 57

/-- The digit loop of `strconv.ParseUint(s, 10, 64)`: `n` is the value read
so far.  A character that is no digit is a syntax error; a value that leaves
64 bits is a range error, reported as soon as it happens, with the value
`2^64 - 1`. -/
def parseUintLoop (n : Nat) : Str → Nat × Option NumError
  | [] => (n, none)
  | c :: cs =>
    if isDigit c then
      if n ≥ (2 ^ 64 - 1) / 10 + 1 then (2 ^ 64 - 1, some NumError.errRange)
      else
        let n10 := n * 10
        let n1 := (n10 + (c.toNat - 48)) % 2 ^ 64
        if n1 < n10 ∨ n1 > 2 ^ 64 - 1 then (2 ^ 64 - 1, some NumError.errRange)
        else parseUintLoop n1 cs
    else (0, some NumError.errSyntax)

/-- Go `strconv.ParseUint(s, 10, 64)`. -/
def ParseUint (s : Str) : Nat × Option NumError :=
  if s = [] then (0, some NumError.errSyntax) else parseUintLoop 0 s

/-- Go `strconv.ParseInt(s, 10, 64)`: an optional sign, then `ParseUint`; a
value out of range is replaced by the nearest bound and reported as a range
error, a syntax error gives 0. -/
def ParseInt (s : Str) : Int × Option NumError :=
  match s with
  | [] => (0, some NumError.errSyntax)
  | c :: cs =>
    let neg := decide (c = '-')
    let body := if c = '+' ∨ c = '-' then cs else c :: cs
    match ParseUint body with
    | (_, some NumError.errSyntax) => (0, some NumError.errSyntax)
    | (un, err) =>
      if ¬ neg ∧ un ≥ 2 ^ 63 then ((2 : Int) ^ 63 - 1, some NumError.errRange)
      else if neg ∧ un > 2 ^ 63 then (-(2 : Int) ^ 63, some NumError.errRange)
      else (if neg then -(un : Int) else (un : Int), err)

/-- Go `strconv.Atoi`, documented as `ParseInt(s, 10, 0)` converted to
`int`. -/
def Atoi (s : Str) : Int × Option NumError := ParseInt s

/-- Go `fmt.Sprintf` with the verb `%d` on a non-negative integer. -/
def itoa (n : Nat) : Str := Nat.toDigits 10 n

/-! ## `git.go`: running git -/

/-- What running the git binary gave: its standard output, or a non-zero exit
with its standard error (`*exec.ExitError`), or another failure to run. -/
inductive ExecResult where
  | ok (stdout : Str)
  | exitError (stderr : Str)
  | otherError (msg : Str)
  deriving DecidableEq, Repr

/-- The environment of the data-source functions: the directory given with
`-C` (`repoDir`) and the git binary itself, from an argument vector to the
outcome of the process. -/
structure GitEnv where
  repoDir : Str
  exec : List Str → ExecResult

/-- Source `runGit`: the argument vector really passed to the git binary. -/
def runGitArgs (env : GitEnv) (args : List Str) : List Str :=
  if env.repoDir ≠ [] then ['-', 'C'] :: env.repoDir :: args else args

/-- Source `runGit`: executes a git command and returns its trimmed stdout,
or the error. -/
def runGit (env : GitEnv) (args : List Str) : Except Str Str :=
  let args := runGitArgs env args
  match env.exec args with
  | ExecResult.exitError stderr =>
    Except.error (['g', 'i', 't', ' '] ++ args.headD [] ++ [':', ' '] ++ TrimSpace stderr)
  | ExecResult.otherError msg => Except.error msg
  | ExecResult.ok out => Except.ok (TrimSpace out)

/-! ## `git.go`: the parsers -/

/-- Source `stashEntry`: a single git stash. -/
structure stashEntry where
  index : Int
  ref : Str
  branch : Str
  message : Str
  deriving DecidableEq, Repr

/-- The text `stash@{i}` that `parseStashList` builds with
`fmt.Sprintf("stash@{%d}", i)`. -/
def stashRef (i : Nat) : Str :=
  ['s', 't', 'a', 's', 'h', '@', Char.ofNat 123] ++ itoa i ++ [Char.ofNat 125]

/-- The body of the loop of `parseStashList` for a non-blank (already
trimmed) line at position `i`. -/
def stashEntryOfLine (i : Nat) (line : Str) : stashEntry :=
  let e : stashEntry := { index := (i : Int), ref := stashRef i, branch := [], message := [] }
  match SplitN line [':', ' '] 3 with
  | _ :: p1 :: p2 :: _ =>
    let branchPart := p1
    let branchPart := TrimPrefix branchPart ['W', 'I', 'P', ' ', 'o', 'n', ' ']
    let branchPart := TrimPrefix branchPart ['O', 'n', ' ']
    { e with branch := branchPart, message := p2 }
  | [_, p1] => { e with message := p1 }
  | _ => { e with message := line }

/-- The loop `for i, line := range lines` of `parseStashList`. -/
def parseStashLoop : Nat → List Str → List stashEntry
  | _, [] => []
  | i, line :: rest =>
    let line := TrimSpace line
    if line = [] then parseStashLoop (i + 1) rest
    else stashEntryOfLine i line :: parseStashLoop (i + 1) rest

/-- Source `parseStashList`: parses the output of `git stash list`. -/
def parseStashList (raw : Str) : List stashEntry :=
  if raw = [] then []
  else parseStashLoop 0 (Split raw ['\n'])

/-- Source `fileEntry`: a file changed in a stash. -/
structure fileEntry where
  status : Str
  name : Str
  added : Int
  removed : Int
  deriving DecidableEq, Repr

/-- The loop `for _, line := range lines` of `parseFileList`. -/
def parseFileLoop : List Str → List fileEntry
  | [] => []
  | line :: rest =>
    let line := TrimSpace line
    if line = [] then parseFileLoop rest
    else
      match Split line ['\t'] with
      | p0 :: p1 :: more =>
        let status := p0
        let name := p1
        if HasPrefix status ['R'] then
          let status := ['R']
          let name := (match more with
            | p2 :: _ => p1 ++ [' ', '-', '>', ' '] ++ p2
            | [] => name)
          { status := status, name := name, added := 0, removed := 0 } :: parseFileLoop rest
        else
          { status := status, name := name, added := 0, removed := 0 } :: parseFileLoop rest
      | _ => parseFileLoop rest

/-- Source `parseFileList`: parses the output of
`git stash show --name-status`. -/
def parseFileList (raw : Str) : List fileEntry :=
  if raw = [] then []
  else parseFileLoop (Split raw ['\n'])

/-- A Go `map[string][2]int`, as an association list with one pair per key. -/
abbrev StatMap := List (Str × (Int × Int))

/-- The map assignment `m[k] = v`. -/
def StatMap.set (m : StatMap) (k : Str) (v : Int × Int) : StatMap :=
  if m.any (fun p => p.1 == k) then m.map (fun p => if p.1 == k then (k, v) else p)
  else m ++ [(k, v)]

/-- The map read `v, ok := m[k]`. -/
def StatMap.get? (m : StatMap) (k : Str) : Option (Int × Int) :=
  (m.find? (fun p => p.1 == k)).map (fun p => p.2)

/-- The loop `for _, line := range strings.Split(raw, "\n")` of
`parseNumstat`. -/
def parseNumstatLoop (result : StatMap) : List Str → StatMap
  | [] => result
  | line :: rest =>
    let line := TrimSpace line
    if line = [] then parseNumstatLoop result rest
    else
      match Split line ['\t'] with
      | p0 :: p1 :: p2 :: _ =>
        let added := (Atoi p0).1
        let removed := (Atoi p1).1
        let name := p2
        parseNumstatLoop (result.set name (added, removed)) rest
      | _ => parseNumstatLoop result rest

/-- Source `parseNumstat`: parses `git stash show --numstat` output. -/
def parseNumstat (raw : Str) : StatMap :=
  if raw = [] then []
  else parseNumstatLoop [] (Split raw ['\n'])

/-! ## `git.go`: the data-source functions -/

/-- Source `loadStashes`: fetches and parses all stashes. -/
def loadStashes (env : GitEnv) : Except Str (List stashEntry) :=
  match runGit env [['s', 't', 'a', 's', 'h'], ['l', 'i', 's', 't']] with
  | Except.error err => Except.error err
  | Except.ok out => Except.ok (parseStashList out)

/-- The loop `for i := range entries` of `loadFiles`, which merges the line
statistics into the parsed entries. -/
def mergeStats (stats : StatMap) : List fileEntry → List fileEntry
  | [] => []
  | e :: rest =>
    let name := e.name
    let idx := Index name [' ', '-', '>', ' ']
    let name := if idx ≠ -1 then name.drop (idx.toNat + 4) else name
    match stats.get? name with
    | some s => { e with added := s.1, removed := s.2 } :: mergeStats stats rest
    | none => e :: mergeStats stats rest

/-- Source `loadFiles`: fetches the list of changed files for a stash. -/
def loadFiles (env : GitEnv) (ref : Str) : Except Str (List fileEntry) :=
  match runGit env [['s', 't', 'a', 's', 'h'], ['s', 'h', 'o', 'w'],
      ['-', '-', 'n', 'a', 'm', 'e', '-', 's', 't', 'a', 't', 'u', 's'], ref] with
  | Except.error err => Except.error err
  | Except.ok out =>
    let entries := parseFileList out
    match runGit env [['s', 't', 'a', 's', 'h'], ['s', 'h', 'o', 'w'],
        ['-', '-', 'n', 'u', 'm', 's', 't', 'a', 't'], ref] with
    | Except.ok numOut => Except.ok (mergeStats (parseNumstat numOut) entries)
    | Except.error _ => Except.ok entries

/-- Source `loadDiff`: the arguments it gives to `runGit`. -/
def loadDiffArgs (ref file : Str) : List Str :=
  let idx := Index file [' ', '-', '>', ' ']
  let file := if idx ≠ -1 then file.drop (idx.toNat + 4) else file
  [['d', 'i', 'f', 'f'], ref ++ ['^'], ref, ['-', '-'], file]

/-- Source `loadDiff`: fetches the diff for a specific file in a stash. -/
def loadDiff (env : GitEnv) (ref file : Str) : Except Str Str :=
  runGit env (loadDiffArgs ref file)

/-- Source `applyStash`: applies an entire stash to the working tree. -/
def applyStash (env : GitEnv) (ref : Str) : Option Str :=
  match runGit env [['s', 't', 'a', 's', 'h'], ['a', 'p', 'p', 'l', 'y'], ref] with
  | Except.error err => some err
  | Except.ok _ => none

/-- Source `applyFile`: the arguments it gives to `runGit`, the last one
being the path checked out. -/
def applyFileArgs (ref file : Str) : List Str :=
  let idx := Index file [' ', '-', '>', ' ']
  let file := if idx ≠ -1 then file.drop (idx.toNat + 4) else file
  [['c', 'h', 'e', 'c', 'k', 'o', 'u', 't'], ref, ['-', '-'], file]

/-- Source `applyFile`: restores a single file from a stash into the working
tree. -/
def applyFile (env : GitEnv) (ref file : Str) : Option Str :=
  match runGit env (applyFileArgs ref file) with
  | Except.error err => some err
  | Except.ok _ => none

/-! ## `model.go`: messages, commands and the model -/

/-- Source `viewState`: which level of the UI is shown. -/
inductive viewState where
  | stashListView
  | fileListView
  | diffView
  deriving DecidableEq, Repr

/-- Source `applyScope`: what will be applied. -/
inductive applyScope where
  | applyWholeStash
  | applySingleFile
  deriving DecidableEq, Repr

/-- The list items of the program: source `stashItem` and `fileItem`. -/
inductive Item where
  | stashItem (entry : stashEntry)
  | fileItem (entry : fileEntry)
  deriving DecidableEq, Repr

/-- A key press (`tea.KeyMsg`): the text `msg.String()` gives for it, which is
all the program reads, and the rest of the message, which only the widgets
see. -/
structure KeyMsg where
  str : Str
  rest : Nat
  deriving DecidableEq, Repr

/-- The messages `Update` receives: the window size, the four completion
messages of the source, a key press, and any other message of the UI
library. -/
inductive Msg where
  | WindowSizeMsg (Width Height : Int)
  | stashesLoadedMsg (stashes : List stashEntry) (err : Option Str)
  | filesLoadedMsg (files : List fileEntry) (err : Option Str)
  | diffLoadedMsg (diff file : Str) (err : Option Str)
  | applyResultMsg (err : Option Str) (label : Str)
  | KeyMsg (key : KeyMsg)
  | other (tag : Nat)
  deriving DecidableEq, Repr

/-- Source `list.FilterState` of the list widget. -/
inductive FilterState where
  | Unfiltered
  | Filtering
  | FilterApplied
  deriving DecidableEq, Repr

/-- The item delegates of the two lists: source `stashDelegate` and
`fileDelegate`. -/
inductive Delegate where
  | stashDelegate
  | fileDelegate
  deriving DecidableEq, Repr

/-- The styles `colorizeDiff` renders lines with. -/
inductive DiffStyle where
  | diffHunkStyle
  | diffAddStyle
  | diffDelStyle
  | diffCtxStyle
  deriving DecidableEq, Repr

/-- The UI library, abstract: the list widget (`list.Model`), the viewport
(`viewport.Model`), the commands they return and the style renderer, with the
operations the program calls on them. -/
structure Widgets where
  /-- The type `list.Model`. -/
  ListModel : Type
  /-- The type `viewport.Model`. -/
  Viewport : Type
  /-- The commands the widgets return from their `Update`. -/
  WidgetCmd : Type
  /-- The zero value of `list.Model`. -/
  listZero : ListModel
  /-- The call `list.New(items, delegate, width, height)`. -/
  listNew : List Item → Delegate → Int → Int → ListModel
  /-- The settings made on a new list: its title, the status bar shown,
  filtering enabled, the help hidden. -/
  listConfigure : ListModel → Str → ListModel
  /-- The method `SelectedItem`, `none` being `nil`. -/
  listSelectedItem : ListModel → Option Item
  /-- The method `FilterState`. -/
  listFilterState : ListModel → FilterState
  /-- The method `SetSize`. -/
  listSetSize : ListModel → Int → Int → ListModel
  /-- The method `Update` of the list. -/
  listUpdate : ListModel → Msg → ListModel × Option WidgetCmd
  /-- The zero value of `viewport.Model`. -/
  viewportZero : Viewport
  /-- The call `viewport.New(width, height)`. -/
  viewportNew : Int → Int → Viewport
  /-- The method `SetContent`. -/
  viewportSetContent : Viewport → Str → Viewport
  /-- The assignment to the field `Width`. -/
  viewportSetWidth : Viewport → Int → Viewport
  /-- The assignment to the field `Height`. -/
  viewportSetHeight : Viewport → Int → Viewport
  /-- The method `Update` of the viewport. -/
  viewportUpdate : Viewport → Msg → Viewport × Option WidgetCmd
  /-- The method `Render` of a style. -/
  render : DiffStyle → Str → Str

/-- The commands `Update` and `Init` return (`tea.Cmd`, `none` being `nil`):
`tea.Quit`, the four closures of the source, each with the variables it
captures, and the commands of the widgets. -/
inductive Cmd (W : Widgets) where
  | Quit
  | loadStashesCmd
  | loadFilesCmd (ref : Str)
  | loadDiffCmd (ref file : Str)
  | applyCmd (scope : applyScope) (ref file label : Str)
  | widget (c : W.WidgetCmd)

/-- A call of a data-source function of `git.go`. -/
inductive DataCall where
  | loadStashes
  | loadFiles (ref : Str)
  | loadDiff (ref file : Str)
  | applyStash (ref : Str)
  | applyFile (ref file : Str)
  deriving DecidableEq, Repr

/-- The data-source call the body of a command makes when the runtime runs
it: none for `tea.Quit` and for the commands of the widgets. -/
def Cmd.call {W : Widgets} : Cmd W → Option DataCall
  | Cmd.Quit => none
  | Cmd.loadStashesCmd => some DataCall.loadStashes
  | Cmd.loadFilesCmd ref => some (DataCall.loadFiles ref)
  | Cmd.loadDiffCmd ref file => some (DataCall.loadDiff ref file)
  | Cmd.applyCmd scope ref file _ =>
    if scope = applyScope.applySingleFile then some (DataCall.applyFile ref file)
    else some (DataCall.applyStash ref)
  | Cmd.widget _ => none

/-- Whether a data-source call is one of the two that change the working
tree. -/
def DataCall.isApply : DataCall → Bool
  | DataCall.applyStash _ => true
  | DataCall.applyFile _ _ => true
  | _ => false

/-- Whether running the command calls `applyStash` or `applyFile`. -/
def Cmd.invokesApply {W : Widgets} (c : Option (Cmd W)) : Bool :=
  match c with
  | some c => (match c.call with
    | some d => d.isApply
    | none => false)
  | none => false

/-- The bodies of the four closures: the completion message each one returns
when run against the repository.  `tea.Quit` and the commands of the widgets
produce messages of the UI library, which are not modelled. -/
def Cmd.run {W : Widgets} (env : GitEnv) : Cmd W → Option Msg
  | Cmd.Quit => none
  | Cmd.loadStashesCmd =>
    match loadStashes env with
    | Except.ok stashes => some (Msg.stashesLoadedMsg stashes none)
    | Except.error err => some (Msg.stashesLoadedMsg [] (some err))
  | Cmd.loadFilesCmd ref =>
    match loadFiles env ref with
    | Except.ok files => some (Msg.filesLoadedMsg files none)
    | Except.error err => some (Msg.filesLoadedMsg [] (some err))
  | Cmd.loadDiffCmd ref file =>
    match loadDiff env ref file with
    | Except.ok diff => some (Msg.diffLoadedMsg diff file none)
    | Except.error err => some (Msg.diffLoadedMsg [] file (some err))
  | Cmd.applyCmd scope ref file label =>
    let err := if scope = applyScope.applySingleFile then applyFile env ref file
      else applyStash env ref
    some (Msg.applyResultMsg err label)
  | Cmd.widget _ => none

/-- Source `model`: the top-level Bubble Tea model. -/
structure model (W : Widgets) where
  state : viewState
  width : Int
  height : Int
  stashList : W.ListModel
  stashes : List stashEntry
  fileList : W.ListModel
  files : List fileEntry
  activeStash : stashEntry
  diffViewport : W.Viewport
  activeFile : Str
  diffContent : Str
  confirming : Bool
  confirmScope : applyScope
  confirmRef : Str
  confirmFile : Str
  confirmLabel : Str
  showHelp : Bool
  err : Option Str
  success : Str
  loading : Bool

/-! ## `stash.go`, `files.go`, `diff.go`: building the widgets -/

/-- Source `newStashList`: a configured list for stash entries. -/
def newStashList (W : Widgets) (entries : List stashEntry) (width height : Int) : W.ListModel :=
  let items := entries.map Item.stashItem
  let l := W.listNew items Delegate.stashDelegate width height
  W.listConfigure l ['S', 't', 'a', 's', 'h', 'e', 's']

/-- Source `newFileList`: a configured list for file entries. -/
def newFileList (W : Widgets) (entries : List fileEntry) (width height : Int) : W.ListModel :=
  let items := entries.map Item.fileItem
  let l := W.listNew items Delegate.fileDelegate width height
  W.listConfigure l ['C', 'h', 'a', 'n', 'g', 'e', 'd', ' ', 'F', 'i', 'l', 'e', 's']

/-- The body of the loop of `colorizeDiff`: one line, styled by its first
characters. -/
def colorizeLine (W : Widgets) (line : Str) : Str :=
  if HasPrefix line ['+', '+', '+', ' '] ∨ HasPrefix line ['-', '-', '-', ' '] then
    W.render DiffStyle.diffHunkStyle line
  else if HasPrefix line ['@', '@'] then W.render DiffStyle.diffHunkStyle line
  else if HasPrefix line ['+'] then W.render DiffStyle.diffAddStyle line
  else if HasPrefix line ['-'] then W.render DiffStyle.diffDelStyle line
  else W.render DiffStyle.diffCtxStyle line

/-- Source `colorizeDiff`: applies the styles to a unified diff string. -/
def colorizeDiff (W : Widgets) (raw : Str) : Str :=
  Join ((Split raw ['\n']).map (colorizeLine W)) ['\n']

/-- Source `newDiffViewport`: a configured viewport for displaying a diff. -/
def newDiffViewport (W : Widgets) (diff : Str) (width height : Int) : W.Viewport :=
  W.viewportSetContent (W.viewportNew width height) (colorizeDiff W diff)

/-! ## `model.go`: the update function -/

/-- Arithmetic on a Go `int`: the result reduced to 64 bits, two's
complement. -/
def wrapInt (x : Int) : Int := (x + 2 ^ 63) % 2 ^ 64 - 2 ^ 63

/-- Source `footerHeight`. -/
def footerHeight : Int := 1

/-- Source `initialModel`; the fields it does not name have their zero
value. -/
def initialModel (W : Widgets) : model W :=
  { state := viewState.stashListView
    width := 0
    height := 0
    stashList := W.listZero
    stashes := []
    fileList := W.listZero
    files := []
    activeStash := { index := 0, ref := [], branch := [], message := [] }
    diffViewport := W.viewportZero
    activeFile := []
    diffContent := []
    confirming := false
    confirmScope := applyScope.applyWholeStash
    confirmRef := []
    confirmFile := []
    confirmLabel := []
    showHelp := false
    err := none
    success := []
    loading := true }

/-- Source `model.Init`: the command that loads the stashes. -/
def Init {W : Widgets} (_m : model W) : Option (Cmd W) := some Cmd.loadStashesCmd

/-- Source `model.contentHeight`. -/
def contentHeight {W : Widgets} (m : model W) : Int :=
  let h := wrapInt (wrapInt (m.height - 2) - footerHeight)
  if h < 5 then 20 else h

/-- Source `model.safeWidth`. -/
def safeWidth {W : Widgets} (m : model W) : Int :=
  if m.width < 20 then 80 else m.width

/-- Source `model.startConfirm`: enters the confirmation dialog for the
current context. -/
def startConfirm {W : Widgets} (m : model W) : model W × Option (Cmd W) :=
  match m.state with
  | viewState.stashListView =>
    match W.listSelectedItem m.stashList with
    | some (Item.stashItem entry) =>
      ({ m with
          confirming := true
          confirmScope := applyScope.applyWholeStash
          confirmRef := entry.ref
          confirmLabel := ['A', 'p', 'p', 'l', 'y', ' '] ++ entry.ref ++ [':', ' '] ++
            entry.message }, none)
    | _ => (m, none)
  | viewState.fileListView =>
    ({ m with
        confirming := true
        confirmScope := applyScope.applyWholeStash
        confirmRef := m.activeStash.ref
        confirmLabel := ['A', 'p', 'p', 'l', 'y', ' '] ++ m.activeStash.ref ++ [':', ' '] ++
          m.activeStash.message }, none)
  | viewState.diffView =>
    ({ m with
        confirming := true
        confirmScope := applyScope.applySingleFile
        confirmRef := m.activeStash.ref
        confirmFile := m.activeFile
        confirmLabel := ['A', 'p', 'p', 'l', 'y', ' '] ++ m.activeStash.ref ++
          [' ', 't', 'o', ' '] ++ m.activeFile }, none)

/-- Source `model.updateConfirm`: a key press while the confirmation dialog
is open. -/
def updateConfirm {W : Widgets} (m : model W) (msg : KeyMsg) : model W × Option (Cmd W) :=
  if msg.str = ['y'] ∨ msg.str = ['Y'] then
    let m := { m with confirming := false, loading := true, err := none }
    let ref := m.confirmRef
    let file := m.confirmFile
    let scope := m.confirmScope
    let label := m.confirmLabel
    (m, some (Cmd.applyCmd scope ref file label))
  else if msg.str = ['n'] ∨ msg.str = ['N'] ∨ msg.str = ['e', 's', 'c'] then
    ({ m with confirming := false }, none)
  else (m, none)

/-- Source `model.updateStashList`. -/
def updateStashList {W : Widgets} (m : model W) (msg : KeyMsg) : model W × Option (Cmd W) :=
  if msg.str = ['e', 'n', 't', 'e', 'r'] ∧
      W.listFilterState m.stashList ≠ FilterState.Filtering then
    match W.listSelectedItem m.stashList with
    | some (Item.stashItem entry) =>
      let m := { m with activeStash := entry, loading := true, err := none }
      let ref := entry.ref
      (m, some (Cmd.loadFilesCmd ref))
    | _ => (m, none)
  else if msg.str = ['e', 's', 'c'] ∧
      W.listFilterState m.stashList ≠ FilterState.Filtering then
    (m, some Cmd.Quit)
  else
    let r := W.listUpdate m.stashList (Msg.KeyMsg msg)
    ({ m with stashList := r.1 }, r.2.map Cmd.widget)

/-- Source `model.updateFileList`. -/
def updateFileList {W : Widgets} (m : model W) (msg : KeyMsg) : model W × Option (Cmd W) :=
  if msg.str = ['e', 'n', 't', 'e', 'r'] ∧
      W.listFilterState m.fileList ≠ FilterState.Filtering then
    match W.listSelectedItem m.fileList with
    | some (Item.fileItem entry) =>
      let m := { m with loading := true, err := none }
      let ref := m.activeStash.ref
      let file := entry.name
      (m, some (Cmd.loadDiffCmd ref file))
    | _ => (m, none)
  else if msg.str = ['e', 's', 'c'] ∧
      W.listFilterState m.fileList ≠ FilterState.Filtering then
    ({ m with state := viewState.stashListView, err := none }, none)
  else
    let r := W.listUpdate m.fileList (Msg.KeyMsg msg)
    ({ m with fileList := r.1 }, r.2.map Cmd.widget)

/-- Source `model.updateDiffView`. -/
def updateDiffView {W : Widgets} (m : model W) (msg : KeyMsg) : model W × Option (Cmd W) :=
  if msg.str = ['e', 's', 'c'] then
    ({ m with state := viewState.fileListView, err := none }, none)
  else
    let r := W.viewportUpdate m.diffViewport (Msg.KeyMsg msg)
    ({ m with diffViewport := r.1 }, r.2.map Cmd.widget)

/-- Source `model.updateForState`. -/
def updateForState {W : Widgets} (m : model W) (msg : KeyMsg) : model W × Option (Cmd W) :=
  match m.state with
  | viewState.stashListView => updateStashList m msg
  | viewState.fileListView => updateFileList m msg
  | viewState.diffView => updateDiffView m msg

/-- Source `model.updateSubview`: passes a message to the active view. -/
def updateSubview {W : Widgets} (m : model W) (msg : Msg) : model W × Option (Cmd W) :=
  match m.state with
  | viewState.stashListView =>
    let r := W.listUpdate m.stashList msg
    ({ m with stashList := r.1 }, r.2.map Cmd.widget)
  | viewState.fileListView =>
    let r := W.listUpdate m.fileList msg
    ({ m with fileList := r.1 }, r.2.map Cmd.widget)
  | viewState.diffView =>
    let r := W.viewportUpdate m.diffViewport msg
    ({ m with diffViewport := r.1 }, r.2.map Cmd.widget)

/-- The case `tea.KeyMsg` of source `model.Update`. -/
def updateKey {W : Widgets} (m : model W) (msg : KeyMsg) : model W × Option (Cmd W) :=
  -- Clear success message on any key
  let m := if m.success ≠ [] then { m with success := [] } else m
  -- Handle confirmation dialog first
  if m.confirming then updateConfirm m msg
  -- Global keys always work
  else if msg.str = ['c', 't', 'r', 'l', '+', 'c'] then (m, some Cmd.Quit)
  else if msg.str = ['q'] ∧
      ¬ (m.loading = false ∧
        ((m.state = viewState.stashListView ∧
            W.listFilterState m.stashList = FilterState.Filtering) ∨
          (m.state = viewState.fileListView ∧
            W.listFilterState m.fileList = FilterState.Filtering))) then
    (m, some Cmd.Quit)
  else if msg.str = ['?'] then ({ m with showHelp := !m.showHelp }, none)
  else if msg.str = ['c', 't', 'r', 'l', '+', 'k'] then
    (if m.loading then (m, none) else startConfirm m)
  -- Don't forward keys while loading
  else if m.loading then (m, none)
  else if m.showHelp then ({ m with showHelp := false }, none)
  else
    -- Clear errors on Esc
    let m := if msg.str = ['e', 's', 'c'] ∧ m.err ≠ none ∧ m.state ≠ viewState.stashListView
      then { m with err := none } else m
    updateForState m msg

/-- Source `model.Update`. -/
def Update {W : Widgets} (m : model W) (msg : Msg) : model W × Option (Cmd W) :=
  match msg with
  | Msg.WindowSizeMsg Width Height =>
    let m := { m with width := Width, height := Height }
    if m.loading = false then
      let h := contentHeight m
      let w := safeWidth m
      match m.state with
      | viewState.stashListView => ({ m with stashList := W.listSetSize m.stashList w h }, none)
      | viewState.fileListView => ({ m with fileList := W.listSetSize m.fileList w h }, none)
      | viewState.diffView =>
        ({ m with diffViewport :=
            W.viewportSetHeight (W.viewportSetWidth m.diffViewport w) h }, none)
    else (m, none)
  | Msg.stashesLoadedMsg stashes err =>
    let m := { m with loading := false }
    if err ≠ none then ({ m with err := err }, none)
    else
      let m := { m with stashes := stashes }
      ({ m with stashList := newStashList W m.stashes (safeWidth m) (contentHeight m) }, none)
  | Msg.filesLoadedMsg files err =>
    let m := { m with loading := false }
    if err ≠ none then ({ m with err := err }, none)
    else
      let m := { m with files := files, state := viewState.fileListView }
      ({ m with fileList := newFileList W m.files (safeWidth m) (contentHeight m) }, none)
  | Msg.diffLoadedMsg diff file err =>
    let m := { m with loading := false }
    if err ≠ none then ({ m with err := err }, none)
    else
      let m := { m with state := viewState.diffView, activeFile := file, diffContent := diff }
      ({ m with diffViewport :=
          newDiffViewport W m.diffContent (safeWidth m) (contentHeight m) }, none)
  | Msg.applyResultMsg err label =>
    let m := { m with loading := false }
    if err ≠ none then ({ m with err := err }, none)
    else ({ m with success := label }, none)
  | Msg.KeyMsg key => updateKey m key
  | Msg.other tag =>
    -- Pass other messages to active view (only when not loading)
    if m.loading = false then updateSubview m (Msg.other tag) else (m, none)

/-! ## Concrete inputs used to instantiate the theorems -/

/-- A small implementation of the widgets: a list is its items, the first one
selected, never filtering; a viewport is its content; no widget command. -/
def demoWidgets : Widgets :=
  { ListModel := List Item
    Viewport := Str
    WidgetCmd := Unit
    listZero := []
    listNew := fun items _ _ _ => items
    listConfigure := fun l _ => l
    listSelectedItem := fun l => l.head?
    listFilterState := fun _ => FilterState.Unfiltered
    listSetSize := fun l _ _ => l
    listUpdate := fun l _ => (l, none)
    viewportZero := []
    viewportNew := fun _ _ => []
    viewportSetContent := fun _ s => s
    viewportSetWidth := fun v _ => v
    viewportSetHeight := fun v _ => v
    viewportUpdate := fun v _ => (v, none)
    render := fun _ s => s }

/-- The stash entry `stash@{0}` on `main` with the message `fix bug`. -/
def demoStash : stashEntry :=
  { index := 0
    ref := stashRef 0
    branch := ['m', 'a', 'i', 'n']
    message := ['f', 'i', 'x', ' ', 'b', 'u', 'g'] }

/-- The stash list loaded with `demoStash`, nothing in flight. -/
def demoStashListModel : model demoWidgets :=
  { initialModel demoWidgets with
    stashes := [demoStash]
    stashList := [Item.stashItem demoStash]
    loading := false }

/-- A key press with the given text. -/
def keyOf (s : Str) : KeyMsg := { str := s, rest := 0 }

/-- The model after the apply request `ctrl+k` on `demoStashListModel`: the
confirmation dialog is open for the whole stash. -/
def demoConfirmingModel : model demoWidgets :=
  (startConfirm demoStashListModel).1

/-! ## Predicates used to state the theorems -/

/-- Whether the navigation-level fields `state`, `files` and `diffContent`
are the same in two models. -/
def sameNavigation {W : Widgets} (m m1 : model W) : Prop :=
  m1.state = m.state ∧ m1.files = m.files ∧ m1.diffContent = m.diffContent

/-- What `Update` does with a completion message that carries the error `e`:
the error is recorded, `loading` is reset, no command is returned, and
`state`, `files`, `activeFile` and `diffContent` are those of the model `m`
that received the message. -/
def failureRecorded {W : Widgets} (m : model W) (e : Str) (r : model W × Option (Cmd W)) :
    Prop :=
  r.1.err = some e ∧ r.1.loading = false ∧ r.2 = none ∧ r.1.state = m.state ∧
    r.1.files = m.files ∧ r.1.activeFile = m.activeFile ∧ r.1.diffContent = m.diffContent

/-- The key names `Update` compares `msg.String()` with. -/
def keyEnter : Str := ['e', 'n', 't', 'e', 'r']

/-- The key name of the apply request. -/
def keyCtrlK : Str := ['c', 't', 'r', 'l', '+', 'k']

/-- The key name of the back and cancel intent. -/
def keyEsc : Str := ['e', 's', 'c']

/-- The file list of one added file. -/
def demoFiles : List fileEntry :=
  [{ status := ['A'], name := ['a', '.', 't', 'x', 't'], added := 0, removed := 0 }]

/-- The file list of `demoStash` shown, nothing in flight. -/
def demoFileListModel : model demoWidgets :=
  { demoStashListModel with
    state := viewState.fileListView
    activeStash := demoStash
    files := demoFiles
    fileList := demoFiles.map Item.fileItem }

/-- The separator `": "` of the fields of a stash line. -/
def colonSep : Str := [':', ' ']

/-- The separator `" -> "` between the old and the new name of a renamed
file. -/
def arrowSep : Str := [' ', '-', '>', ' ']

/-- The text `"On "` that precedes the branch of a stash made with a
message. -/
def onText : Str := ['O', 'n', ' ']

/-- The text `"WIP on "` that precedes the branch of a stash made without a
message. -/
def wipText : Str := ['W', 'I', 'P', ' ', 'o', 'n', ' ']

/-- A line of `git stash list`: `<label>: On <branch>: <message>`, or
`<label>: WIP on <branch>: <message>` when `wip` is true. -/
def stashLine (wip : Bool) (label branch message : Str) : Str :=
  label ++ colonSep ++ (if wip then wipText else onText) ++ branch ++ colonSep ++ message

/-- A well-formed stash line: a line of the format of `git stash list`, with
no line break in it. -/
def WellFormedStashLine (l : Str) : Prop :=
  '\n' ∉ l ∧ ∃ (wip : Bool) (label branch message : Str), l = stashLine wip label branch message

/-- A listing of two stash lines; the second one carries the label
`stash@{7}` in its text. -/
def demoListing : List Str :=
  [stashLine false (stashRef 0) ['m', 'a', 'i', 'n'] ['f', 'i', 'x', ' ', 'b', 'u', 'g'],
   stashLine true (stashRef 7) ['d', 'e', 'v'] ['a', 'b', 'c', '1', '2', '3', ' ', 'w', 'i', 'p']]

/-- The value of a decimal digit. -/
def digitValue (c : Char) : Nat := c.toNat - 48

/-- The number a run of decimal digits denotes, read after the value `n`. -/
def decimalFrom (n : Nat) (ds : Str) : Nat :=
  ds.foldl (fun v c => v * 10 + digitValue c) n

/-- A field without its sign `+` or `-`, if it has one. -/
def unsignedPart (f : Str) : Str :=
  match f with
  | [] => []
  | c :: cs => if c = '+' ∨ c = '-' then cs else c :: cs

/-- Whether a field is a decimal integer: an optional sign followed by one or
more decimal digits. -/
def isDecimalInteger (f : Str) : Bool :=
  !(unsignedPart f).isEmpty && (unsignedPart f).all isDigit

/-- The integer a decimal integer denotes. -/
def decimalValue (f : Str) : Int :=
  match f with
  | [] => 0
  | c :: cs => if c = '-' then -(decimalFrom 0 cs : Int) else (decimalFrom 0 (unsignedPart (c :: cs)) : Int)

/-- The value the claim gives to a field of a numeric-stats line: its
integer value when it is a decimal integer, 0 otherwise. -/
def statValue (f : Str) : Int :=
  if isDecimalInteger f then decimalValue f else 0

/-- The fields on which a 64-bit `int` can hold what was read: a decimal
integer within the range of `int`, or a text that is no decimal integer and
whose leading digits, after the sign, stay below `2^64`. -/
def fitsInt (f : Str) : Prop :=
  if isDecimalInteger f then -(2 : Int) ^ 63 ≤ decimalValue f ∧ decimalValue f < (2 : Int) ^ 63
  else decimalFrom 0 ((unsignedPart f).takeWhile isDigit) < 2 ^ 64

instance (f : Str) : Decidable (fitsInt f) := by
  unfold fitsInt
  infer_instance

/-- The diff of the file `file` of `demoStash` shown, nothing in flight. -/
def demoDiffModel (file : Str) : model demoWidgets :=
  { demoFileListModel with
    state := viewState.diffView
    activeFile := file
    diffContent := ['+', 'x']
    diffViewport := ['+', 'x'] }

/-- The git arguments `checkout <ref> -- <path>` of `applyFile`. -/
def checkoutArgs (ref path : Str) : List Str :=
  [['c', 'h', 'e', 'c', 'k', 'o', 'u', 't'], ref, ['-', '-'], path]

/-- The name under which the merge step of `loadFiles` looks an entry up in
the statistics: the text after the first `" -> "` of its name, or the name
itself when it has none. -/
def statsKey (name : Str) : Str :=
  if Index name arrowSep ≠ -1 then name.drop ((Index name arrowSep).toNat + 4) else name

/-- What the merge step of `loadFiles` makes of one entry. -/
def mergeEntry (stats : StatMap) (e : fileEntry) : fileEntry :=
  match stats.get? (statsKey e.name) with
  | some s => { e with added := s.1, removed := s.2 }
  | none => e

/-- The file list parsed from the rename line `R100<TAB>o.t<TAB>n.t`. -/
def demoRenamedFiles : List fileEntry :=
  parseFileList (['R', '1', '0', '0', '\t', 'o', '.', 't', '\t', 'n', '.', 't'])

/-- The statistics parsed from the line `3<TAB>1<TAB>n.t`. -/
def demoStats : StatMap :=
  parseNumstat ['3', '\t', '1', '\t', 'n', '.', 't']

/-! ## The event loop: the model with the tasks in flight -/

/-- The state of the running program: the model, and the data-source tasks
that were started and have not yet delivered their completion message. -/
abbrev Sys (W : Widgets) := model W × List (Cmd W)

/-- The data-source task a returned command starts: the command itself when
its body calls a data-source function, nothing for `nil`, `tea.Quit` and the
commands of the widgets. -/
def dataTask {W : Widgets} (c : Option (Cmd W)) : List (Cmd W) :=
  match c with
  | some c => if c.call.isSome then [c] else []
  | none => []

/-- Whether `msg` is a completion message the closure `c` can return: the
message type of the closure, with the file or label the closure captured. -/
def completionOf {W : Widgets} : Cmd W → Msg → Prop
  | Cmd.loadStashesCmd, Msg.stashesLoadedMsg _ _ => True
  | Cmd.loadFilesCmd _, Msg.filesLoadedMsg _ _ => True
  | Cmd.loadDiffCmd _ file, Msg.diffLoadedMsg _ f _ => f = file
  | Cmd.applyCmd _ _ _ label, Msg.applyResultMsg _ l => l = label
  | _, _ => False

/-- A key press handled by `Update`: the new model, and the task started, if
any, added to those in flight. -/
def stepKey {W : Widgets} (s : Sys W) (k : KeyMsg) : Sys W :=
  ((Update s.1 (Msg.KeyMsg k)).1, s.2 ++ dataTask (Update s.1 (Msg.KeyMsg k)).2)

/-- A window-size message handled by `Update`. -/
def stepWindow {W : Widgets} (s : Sys W) (w h : Int) : Sys W :=
  ((Update s.1 (Msg.WindowSizeMsg w h)).1,
    s.2 ++ dataTask (Update s.1 (Msg.WindowSizeMsg w h)).2)

/-- The completion message `msg` of a task in flight handled by `Update`:
`rest` are the other tasks in flight. -/
def stepDeliver {W : Widgets} (s : Sys W) (rest : List (Cmd W)) (msg : Msg) : Sys W :=
  ((Update s.1 msg).1, rest ++ dataTask (Update s.1 msg).2)

/-- The states reachable from `initialModel`, with the task started by `Init`
in flight, by key presses, window-size messages and deliveries of the
completion message of a task in flight. -/
inductive Reachable {W : Widgets} : Sys W → Prop where
  | init : Reachable (initialModel W, dataTask (Init (initialModel W)))
  | key (s : Sys W) (k : KeyMsg) : Reachable s → Reachable (stepKey s k)
  | window (s : Sys W) (w h : Int) : Reachable s → Reachable (stepWindow s w h)
  | deliver (s : Sys W) (before after : List (Cmd W)) (c : Cmd W) (msg : Msg) :
      Reachable s → s.2 = before ++ c :: after → completionOf c msg →
        Reachable (stepDeliver s (before ++ after) msg)

/-- The states reachable as in `Reachable`, but without any apply request made
from the diff view: no key `ctrl+k` is pressed while the state is
`diffView`. -/
inductive ReachableBeforeFileRequest {W : Widgets} : Sys W → Prop where
  | init : ReachableBeforeFileRequest (initialModel W, dataTask (Init (initialModel W)))
  | key (s : Sys W) (k : KeyMsg) : ReachableBeforeFileRequest s →
      ¬ (k.str = keyCtrlK ∧ s.1.state = viewState.diffView) →
        ReachableBeforeFileRequest (stepKey s k)
  | window (s : Sys W) (w h : Int) : ReachableBeforeFileRequest s →
      ReachableBeforeFileRequest (stepWindow s w h)
  | deliver (s : Sys W) (before after : List (Cmd W)) (c : Cmd W) (msg : Msg) :
      ReachableBeforeFileRequest s → s.2 = before ++ c :: after → completionOf c msg →
        ReachableBeforeFileRequest (stepDeliver s (before ++ after) msg)

/-- The start of the program on `demoWidgets`: the initial model, the
stash-listing task in flight. -/
def demoSys0 : Sys demoWidgets :=
  (initialModel demoWidgets, dataTask (Init (initialModel demoWidgets)))

/-- The stashes are delivered and `enter` is pressed on `demoStash`: the
file-listing task is in flight. -/
def demoSys2 : Sys demoWidgets :=
  stepKey (stepDeliver demoSys0 [] (Msg.stashesLoadedMsg [demoStash] none)) (keyOf keyEnter)

/-- The files are delivered, `enter` is pressed on the file `a.txt` and its
diff is delivered: the diff view is shown. -/
def demoSys5 : Sys demoWidgets :=
  stepDeliver (stepKey (stepDeliver demoSys2 [] (Msg.filesLoadedMsg demoFiles none))
    (keyOf keyEnter)) [] (Msg.diffLoadedMsg ['+', 'x'] ['a', '.', 't', 'x', 't'] none)

/-- An apply request in the diff view is cancelled with `n`, `esc` leads back
to the file list, and `ctrl+k` there asks to apply the whole stash. -/
def demoSys9 : Sys demoWidgets :=
  stepKey (stepKey (stepKey (stepKey demoSys5 (keyOf keyCtrlK)) (keyOf ['n'])) (keyOf keyEsc))
    (keyOf keyCtrlK)

/-- The two outcomes of a key press handled while nothing is loading: no task
started and still not loading, or one task started, loading and not
confirming. -/
def stepOutcome {W : Widgets} (r : model W × Option (Cmd W)) : Prop :=
  (dataTask r.2 = [] ∧ r.1.loading = false) ∨
    (∃ c, dataTask r.2 = [c] ∧ r.1.loading = true ∧ r.1.confirming = false)

/-- The invariant of the event loop: either no task is in flight and the
model is not loading, or exactly one task is in flight and the model is
loading and not confirming. -/
def flightInvariant {W : Widgets} (s : Sys W) : Prop :=
  (s.2 = [] ∧ s.1.loading = false) ∨
    (∃ c, s.2 = [c] ∧ s.1.loading = true ∧ s.1.confirming = false)

/-! ## Theorems on `Update`: confirmation, loading, failures, drill-down -/

theorem invokesApply_none {W : Widgets} :
    Cmd.invokesApply (none : Option (Cmd W)) = false := rfl

theorem invokesApply_quit {W : Widgets} :
    Cmd.invokesApply (some (Cmd.Quit : Cmd W)) = false := rfl

theorem invokesApply_applyCmd {W : Widgets} (scope : applyScope) (ref file label : Str) :
    Cmd.invokesApply (some (Cmd.applyCmd scope ref file label : Cmd W)) = true := by
  cases scope <;> rfl

theorem invokesApply_map_widget {W : Widgets} (c : Option W.WidgetCmd) :
    Cmd.invokesApply (c.map (Cmd.widget : W.WidgetCmd → Cmd W)) = false := by
  cases c <;> rfl

theorem invokesApply_startConfirm {W : Widgets} (m : model W) :
    Cmd.invokesApply (startConfirm m).2 = false := by
  unfold startConfirm
  split
  · split <;> rfl
  · rfl
  · rfl

theorem invokesApply_updateForState {W : Widgets} (m : model W) (k : KeyMsg) :
    Cmd.invokesApply (updateForState m k).2 = false := by
  unfold updateForState
  split
  · unfold updateStashList
    split
    · split <;> rfl
    · split
      · rfl
      · exact invokesApply_map_widget _
  · unfold updateFileList
    split
    · split <;> rfl
    · split
      · rfl
      · exact invokesApply_map_widget _
  · unfold updateDiffView
    split
    · rfl
    · exact invokesApply_map_widget _

theorem invokesApply_updateConfirm {W : Widgets} (m : model W) (k : KeyMsg) :
    Cmd.invokesApply (updateConfirm m k).2 = true ↔ (k.str = ['y'] ∨ k.str = ['Y']) := by
  unfold updateConfirm
  by_cases h : k.str = ['y'] ∨ k.str = ['Y']
  · simp only [h, if_true, iff_true]
    exact invokesApply_applyCmd _ _ _ _
  · simp only [h, if_false, iff_false]
    split <;> simp [invokesApply_none]

/-- The model `updateKey` works on once the success message is cleared: its
other fields are those of `m`. -/
theorem clearSuccess_fields {W : Widgets} (m : model W) :
    ∃ m1 : model W, m1 = (if m.success ≠ [] then { m with success := [] } else m) ∧
      m1.confirming = m.confirming ∧ m1.loading = m.loading ∧ m1.state = m.state ∧
      m1.files = m.files ∧ m1.diffContent = m.diffContent ∧ m1.showHelp = m.showHelp ∧
      m1.stashList = m.stashList ∧ m1.fileList = m.fileList ∧
      m1.activeStash = m.activeStash ∧ m1.activeFile = m.activeFile ∧ m1.err = m.err ∧
      m1.confirmScope = m.confirmScope ∧ m1.confirmRef = m.confirmRef ∧
      m1.confirmFile = m.confirmFile ∧ m1.confirmLabel = m.confirmLabel := by
  refine ⟨_, rfl, ?_⟩
  split <;> simp

/-- C1. For every model and every key press, the command `Update` returns
calls `applyStash` or `applyFile` if and only if the model was confirming and
the key is `y` or `Y`; and when the model is confirming, each of the keys `n`,
`N` and `esc` gives a model that is no longer confirming and no command. -/
theorem apply_iff_confirmed {W : Widgets} (m : model W) (k : KeyMsg) :
    (Cmd.invokesApply (Update m (Msg.KeyMsg k)).2 = true ↔
      (m.confirming = true ∧ (k.str = ['y'] ∨ k.str = ['Y']))) ∧
    (m.confirming = true → (k.str = ['n'] ∨ k.str = ['N'] ∨ k.str = ['e', 's', 'c']) →
      (Update m (Msg.KeyMsg k)).1.confirming = false ∧
        (Update m (Msg.KeyMsg k)).2 = none) := by
  obtain ⟨m1, hm1, hc, -⟩ := clearSuccess_fields m
  constructor
  · simp only [Update, updateKey]
    rw [← hm1]
    by_cases hconf : m.confirming = true
    · rw [if_pos (by rw [hc]; exact hconf), invokesApply_updateConfirm]
      simp [hconf]
    · rw [if_neg (by rw [hc]; exact hconf)]
      simp only [hconf, false_and, iff_false]
      split_ifs <;>
        simp [invokesApply_none, invokesApply_quit, invokesApply_startConfirm,
          invokesApply_updateForState]
  · intro hconf hk
    simp only [Update, updateKey]
    rw [← hm1, if_pos (by rw [hc]; exact hconf)]
    unfold updateConfirm
    have hny : ¬ (k.str = ['y'] ∨ k.str = ['Y']) := by
      rcases hk with h | h | h <;> simp [h]
    simp [hny, hk]

/-- C1 at a concrete input: the confirming model `demoConfirmingModel` and
the key `n`. -/
theorem apply_iff_confirmed_witness :
    demoConfirmingModel.confirming = true ∧
      (Update demoConfirmingModel (Msg.KeyMsg (keyOf ['n']))).1.confirming = false ∧
      (Update demoConfirmingModel (Msg.KeyMsg (keyOf ['n']))).2 = none :=
  ⟨rfl, (apply_iff_confirmed demoConfirmingModel (keyOf ['n'])).2 rfl (Or.inl rfl)⟩

/-- C2. While `loading` is true, a key press or a window-size message leaves
`state`, `files` and `diffContent` unchanged, and a message that changes one
of them is a `filesLoadedMsg` or a `diffLoadedMsg`. -/
theorem loading_freezes_navigation {W : Widgets} (m : model W) (msg : Msg)
    (hl : m.loading = true) :
    (((∃ k, msg = Msg.KeyMsg k) ∨ (∃ w h, msg = Msg.WindowSizeMsg w h)) →
      sameNavigation m (Update m msg).1) ∧
    (¬ sameNavigation m (Update m msg).1 →
      (∃ fs e, msg = Msg.filesLoadedMsg fs e) ∨ (∃ d f e, msg = Msg.diffLoadedMsg d f e)) := by
  have key : ∀ k, sameNavigation m (Update m (Msg.KeyMsg k)).1 := by
    intro k
    obtain ⟨m1, hm1, hc, hl1, hs, hf, hd, -⟩ := clearSuccess_fields m
    simp only [Update, updateKey]
    rw [← hm1]
    have hl2 : m1.loading = true := by rw [hl1]; exact hl
    unfold sameNavigation
    by_cases hconf : m1.confirming = true
    · rw [if_pos hconf]
      unfold updateConfirm
      split_ifs <;> simp [hs, hf, hd]
    · rw [if_neg hconf]
      split_ifs <;> simp [hs, hf, hd]
  have win : ∀ w h, sameNavigation m (Update m (Msg.WindowSizeMsg w h)).1 := by
    intro w h
    simp [Update, hl, sameNavigation]
  constructor
  · rintro (⟨k, rfl⟩ | ⟨w, h, rfl⟩)
    · exact key k
    · exact win w h
  · intro hne
    cases msg with
    | WindowSizeMsg w h => exact absurd (win w h) hne
    | stashesLoadedMsg stashes err =>
      exfalso; apply hne
      simp only [Update, sameNavigation]
      split_ifs <;> simp
    | filesLoadedMsg fs e => exact Or.inl ⟨fs, e, rfl⟩
    | diffLoadedMsg d f e => exact Or.inr ⟨d, f, e, rfl⟩
    | applyResultMsg err label =>
      exfalso; apply hne
      simp only [Update, sameNavigation]
      split_ifs <;> simp
    | KeyMsg k => exact absurd (key k) hne
    | other tag =>
      exfalso; apply hne
      simp [Update, hl, sameNavigation]

/-- C2 at a concrete input: the initial model, which is loading, and the key
`enter`. -/
theorem loading_freezes_navigation_witness :
    (initialModel demoWidgets).loading = true ∧
      sameNavigation (initialModel demoWidgets)
        (Update (initialModel demoWidgets) (Msg.KeyMsg (keyOf keyEnter))).1 :=
  ⟨rfl, (loading_freezes_navigation (initialModel demoWidgets) (Msg.KeyMsg (keyOf keyEnter))
    rfl).1 (Or.inl ⟨_, rfl⟩)⟩

/-- C3. For every model and every `stashesLoadedMsg`, `filesLoadedMsg` or
`diffLoadedMsg` that carries an error, `Update` records the error in `err`,
sets `loading` to false, returns no command and leaves `state`, `files`,
`activeFile` and `diffContent` unchanged; so a failed `diffLoadedMsg` received
in `fileListView` leaves the state `fileListView`. -/
theorem failed_load_keeps_view {W : Widgets} (m : model W) (e : Str) :
    (∀ stashes, failureRecorded m e (Update m (Msg.stashesLoadedMsg stashes (some e)))) ∧
    (∀ files, failureRecorded m e (Update m (Msg.filesLoadedMsg files (some e)))) ∧
    (∀ diff file, failureRecorded m e (Update m (Msg.diffLoadedMsg diff file (some e)))) ∧
    (m.state = viewState.fileListView → ∀ diff file,
      (Update m (Msg.diffLoadedMsg diff file (some e))).1.state = viewState.fileListView) := by
  refine ⟨?_, ?_, ?_, ?_⟩
  · intro stashes; simp [Update, failureRecorded]
  · intro files; simp [Update, failureRecorded]
  · intro diff file; simp [Update, failureRecorded]
  · intro hs diff file; simp [Update, hs]

/-- C3 at a concrete input: a diff load that fails with `boom` while the file
list of `demoStash` is shown. -/
theorem failed_load_keeps_view_witness :
    demoFileListModel.state = viewState.fileListView ∧
      (Update demoFileListModel
        (Msg.diffLoadedMsg [] ['a', '.', 't', 'x', 't'] (some ['b', 'o', 'o', 'm']))).1.state =
        viewState.fileListView :=
  ⟨rfl, (failed_load_keeps_view demoFileListModel ['b', 'o', 'o', 'm']).2.2.2 rfl _ _⟩

/-- C4. In the stash list, with nothing loading, no confirmation open, no
help shown and the list not filtering, the key `enter` on the selected stash
`e` gives a model that is loading, has `activeStash = e`, no error and still
the state `stashListView`, with the command that calls `loadFiles(e.ref)`; and
a `filesLoadedMsg` without error that follows, carrying `fs`, gives the state
`fileListView`, `files = fs` and `loading = false`. -/
theorem select_stash_loads_files {W : Widgets} (m : model W) (e : stashEntry) (k : KeyMsg)
    (hs : m.state = viewState.stashListView) (hl : m.loading = false)
    (hc : m.confirming = false) (hh : m.showHelp = false)
    (hf : W.listFilterState m.stashList ≠ FilterState.Filtering)
    (hsel : W.listSelectedItem m.stashList = some (Item.stashItem e))
    (hk : k.str = keyEnter) :
    (Update m (Msg.KeyMsg k)).1.loading = true ∧
    (Update m (Msg.KeyMsg k)).1.activeStash = e ∧
    (Update m (Msg.KeyMsg k)).1.err = none ∧
    (Update m (Msg.KeyMsg k)).1.state = viewState.stashListView ∧
    (Update m (Msg.KeyMsg k)).2 = some (Cmd.loadFilesCmd e.ref) ∧
    Option.bind (Update m (Msg.KeyMsg k)).2 Cmd.call = some (DataCall.loadFiles e.ref) ∧
    ∀ fs : List fileEntry,
      (Update (Update m (Msg.KeyMsg k)).1 (Msg.filesLoadedMsg fs none)).1.state =
          viewState.fileListView ∧
        (Update (Update m (Msg.KeyMsg k)).1 (Msg.filesLoadedMsg fs none)).1.files = fs ∧
        (Update (Update m (Msg.KeyMsg k)).1 (Msg.filesLoadedMsg fs none)).1.loading = false := by
  obtain ⟨m1, hm1, hc1, hl1, hs1, -, -, hh1, hsl1, -⟩ := clearSuccess_fields m
  have hU : Update m (Msg.KeyMsg k) =
      ({ m1 with activeStash := e, loading := true, err := none },
        some (Cmd.loadFilesCmd e.ref)) := by
    simp only [Update, updateKey]
    rw [← hm1]
    rw [hc, hl, hh, hs] at *
    simp [hc1, hl1, hh1, hs1, hk, keyEnter, updateForState, updateStashList, hsl1, hf, hsel]
  rw [hU]
  refine ⟨rfl, rfl, rfl, hs1.trans hs, rfl, rfl, ?_⟩
  intro fs
  simp [Update]

/-- C4 at a concrete input: `enter` on `demoStash` in `demoStashListModel`. -/
theorem select_stash_loads_files_witness :
    (Update demoStashListModel (Msg.KeyMsg (keyOf keyEnter))).2 =
        some (Cmd.loadFilesCmd (stashRef 0)) ∧
      (Update (Update demoStashListModel (Msg.KeyMsg (keyOf keyEnter))).1
        (Msg.filesLoadedMsg demoFiles none)).1.files = demoFiles :=
  have h := select_stash_loads_files demoStashListModel demoStash (keyOf keyEnter)
    rfl rfl rfl rfl (by decide) rfl rfl
  ⟨h.2.2.2.2.1, (h.2.2.2.2.2.2 demoFiles).2.1⟩

/-! ## Lemmas on the string functions -/

theorem indexFrom_of_not_infix (sep : Str) (hsep : sep ≠ []) :
    ∀ (s : Str) (i : Nat), ¬ sep <:+: s → indexFrom sep s i = -1
  | [], i, _ => by simp [indexFrom, hsep]
  | c :: cs, i, h => by
    have h1 : ¬ sep.isPrefixOf (c :: cs) = true := by
      rw [List.isPrefixOf_iff_prefix]
      exact fun hp => h hp.isInfix
    have h2 : ¬ sep <:+: cs := fun hi => h (List.infix_cons hi)
    simp only [indexFrom, h1, if_false]
    exact indexFrom_of_not_infix sep hsep cs (i + 1) h2

theorem prefix_of_prefix_append_sep (sep a b : Str) (ha : a ≠ [])
    (h : sep <+: a ++ sep ++ b) : sep <+: a ++ sep.dropLast := by
  have h2 : a ++ sep.dropLast <+: a ++ sep ++ b := by
    rw [List.append_assoc, List.prefix_append_right_inj]
    exact (List.dropLast_prefix sep).trans (List.prefix_append sep b)
  refine List.prefix_of_prefix_length_le h h2 ?_
  have : 0 < a.length := List.length_pos.mpr ha
  simp only [List.length_append, List.length_dropLast]
  omega

theorem indexFrom_append (sep : Str) (hsep : sep ≠ []) (b : Str) :
    ∀ (a : Str) (i : Nat), ¬ sep <:+: a ++ sep.dropLast →
      indexFrom sep (a ++ sep ++ b) i = ((i + a.length : Nat) : Int)
  | [], i, _ => by
    obtain ⟨c, cs, rfl⟩ := List.exists_cons_of_ne_nil hsep
    have : (c :: cs).isPrefixOf (c :: (cs ++ b)) = true := by
      rw [List.isPrefixOf_iff_prefix]
      exact List.prefix_append (c :: cs) b
    simp [indexFrom, this]
  | x :: a, i, h => by
    have h1 : ¬ sep.isPrefixOf (x :: (a ++ sep ++ b)) = true := by
      rw [List.isPrefixOf_iff_prefix]
      intro hp
      have hp2 : sep <+: (x :: a) ++ sep ++ b := by simpa using hp
      exact h (prefix_of_prefix_append_sep sep (x :: a) b (by simp) hp2).isInfix
    have h2 : ¬ sep <:+: a ++ sep.dropLast := fun hi => h (by
      rw [List.cons_append]; exact List.infix_cons hi)
    have ih := indexFrom_append sep hsep b a (i + 1) h2
    have e : (x :: a) ++ sep ++ b = x :: (a ++ sep ++ b) := rfl
    rw [e, indexFrom, if_neg h1, ih]
    simp only [List.length_cons]
    congr 1
    omega

theorem Index_of_not_infix (sep s : Str) (hsep : sep ≠ []) (h : ¬ sep <:+: s) :
    Index s sep = -1 := indexFrom_of_not_infix sep hsep s 0 h

theorem Index_append (sep a b : Str) (hsep : sep ≠ []) (h : ¬ sep <:+: a ++ sep.dropLast) :
    Index (a ++ sep ++ b) sep = (a.length : Int) := by
  have := indexFrom_append sep hsep b a 0 h
  simpa [Index] using this


theorem take_append_sep (a sep b : Str) : (a ++ sep ++ b).take a.length = a := by
  rw [List.append_assoc, List.take_left]

theorem drop_append_sep (a sep b : Str) : (a ++ sep ++ b).drop (a.length + sep.length) = b := by
  rw [← List.length_append, List.drop_left]

theorem countLoop_of_index_neg (sep s : Str) (k : Nat) (h : Index s sep = -1) :
    countLoop sep k s = 0 := by
  cases k <;> simp [countLoop, h]

theorem splitLoop_of_index_neg (sep s : Str) (k : Nat) (h : Index s sep = -1) :
    splitLoop sep k s = [s] := by
  cases k <;> simp [splitLoop, h]

theorem countLoop_append (sep a b : Str) (k : Nat) (h : Index (a ++ sep ++ b) sep = a.length) :
    countLoop sep (k + 1) (a ++ sep ++ b) = 1 + countLoop sep k b := by
  have hne : ¬ ((a.length : Int) = -1) := by omega
  simp only [countLoop, h, hne, if_false, Int.toNat_ofNat, drop_append_sep]

theorem splitLoop_append (sep a b : Str) (k : Nat) (h : Index (a ++ sep ++ b) sep = a.length) :
    splitLoop sep (k + 1) (a ++ sep ++ b) = a :: splitLoop sep k b := by
  have hne : ¬ ((a.length : Int) < 0) := by omega
  simp only [splitLoop, h, hne, if_false, Int.toNat_ofNat, drop_append_sep, take_append_sep]

theorem not_infix_singleton (c : Char) (s : Str) (h : c ∉ s) : ¬ [c] <:+: s :=
  fun hi => h (hi.subset (List.mem_singleton_self c))

theorem Index_char_of_not_mem (c : Char) (s : Str) (h : c ∉ s) : Index s [c] = -1 :=
  Index_of_not_infix [c] s (by simp) (not_infix_singleton c s h)

theorem Index_char_append (c : Char) (a b : Str) (h : c ∉ a) :
    Index (a ++ [c] ++ b) [c] = (a.length : Int) :=
  Index_append [c] a b (by simp) (by simpa using not_infix_singleton c a h)

theorem loops_Join (c : Char) :
    ∀ (pieces : List Str), pieces ≠ [] → (∀ p ∈ pieces, c ∉ p) →
      ∀ k : Nat, pieces.length ≤ k + 1 →
        countLoop [c] k (Join pieces [c]) = pieces.length - 1 ∧
          splitLoop [c] k (Join pieces [c]) = pieces
  | [], h, _, _, _ => absurd rfl h
  | [a], _, hp, k, _ => by
    have hi := Index_char_of_not_mem c a (hp a (by simp))
    simp [Join, countLoop_of_index_neg _ _ _ hi, splitLoop_of_index_neg _ _ _ hi]
  | a :: b :: rest, _, hp, k, hk => by
    obtain ⟨k1, rfl⟩ : ∃ k1, k = k1 + 1 := ⟨k - 1, by simp at hk; omega⟩
    have hi := Index_char_append c a (Join (b :: rest) [c]) (hp a (by simp))
    have ih := loops_Join c (b :: rest) (by simp)
      (fun p hpm => hp p (List.mem_cons_of_mem a hpm)) k1 (by simp at hk ⊢; omega)
    simp only [Join]
    rw [countLoop_append _ _ _ _ hi, splitLoop_append _ _ _ _ hi, ih.1, ih.2]
    simp
    omega

theorem length_Join_ge (sep : Str) (hsep : sep ≠ []) :
    ∀ pieces : List Str, pieces.length ≤ (Join pieces sep).length + 1
  | [] => by simp [Join]
  | [a] => by simp [Join]
  | a :: b :: rest => by
    have ih := length_Join_ge sep hsep (b :: rest)
    have : 0 < sep.length := List.length_pos.mpr hsep
    simp only [Join, List.length_cons, List.length_append] at ih ⊢
    omega

theorem Split_Join_char (c : Char) (pieces : List Str) (hne : pieces ≠ [])
    (hp : ∀ p ∈ pieces, c ∉ p) : Split (Join pieces [c]) [c] = pieces := by
  have hlen := length_Join_ge [c] (by simp) pieces
  have h1 := loops_Join c pieces hne hp ((Join pieces [c]).length + 1) (by omega)
  have h2 := loops_Join c pieces hne hp (pieces.length - 1) (by omega)
  simp only [Split, SplitN, Count]
  simp [h1.1, h2.2]

theorem Split_single (c : Char) (s : Str) (h : c ∉ s) : Split s [c] = [s] := by
  have := Split_Join_char c [s] (by simp) (by simpa using h)
  simpa [Join] using this

theorem Split_three (c : Char) (a b d : Str) (ha : c ∉ a) (hb : c ∉ b) (hd : c ∉ d) :
    Split (a ++ [c] ++ b ++ [c] ++ d) [c] = [a, b, d] := by
  have := Split_Join_char c [a, b, d] (by simp) (by simp [ha, hb, hd])
  simpa [Join] using this

/-! ## Theorems on the parsers -/

theorem TrimSpace_ne_nil (s : Str) (c : Char) (hc : c ∈ s) (hs : isSpace c = false) :
    TrimSpace s ≠ [] := by
  intro h
  have hd : s.dropWhile isSpace ≠ [] := by
    intro h0
    have := (List.dropWhile_eq_nil_iff.mp h0) c hc
    rw [hs] at this
    exact Bool.false_ne_true this
  have hall := List.rdropWhile_eq_nil_iff.mp h
  have h1 := hall _ (List.head_mem hd)
  rw [List.head_dropWhile_not isSpace s hd] at h1
  exact Bool.false_ne_true h1

theorem TrimSpace_eq_self_iff (s : Str) :
    TrimSpace s = s ↔ s.dropWhile isSpace = s ∧ s.rdropWhile isSpace = s := by
  constructor
  · intro h
    have h1 : (s.dropWhile isSpace).length ≤ s.length := (List.dropWhile_suffix isSpace).length_le
    have h2 : (TrimSpace s).length ≤ (s.dropWhile isSpace).length :=
      (List.rdropWhile_prefix isSpace _).length_le
    rw [h] at h2
    have h3 : s.dropWhile isSpace = s :=
      (List.dropWhile_suffix isSpace).eq_of_length (by omega)
    refine ⟨h3, ?_⟩
    unfold TrimSpace at h
    rwa [h3] at h
  · rintro ⟨h1, h2⟩
    unfold TrimSpace
    rw [h1, h2]

theorem stashEntryOfLine_index_ref (i : Nat) (line : Str) :
    (stashEntryOfLine i line).index = (i : Int) ∧ (stashEntryOfLine i line).ref = stashRef i := by
  unfold stashEntryOfLine
  split <;> exact ⟨rfl, rfl⟩

/-- The text `stashRef k` is the literal `stash@`, an opening brace, the
decimal digits of `k` and a closing brace. -/
theorem stashRef_eq (k : Nat) :
    stashRef k = ['s', 't', 'a', 's', 'h', '@', '{'] ++ (Nat.repr k).toList ++ ['}'] := rfl

/-- The refs of the positions 0, 7 and 12, character by character. -/
theorem stashRef_literals :
    stashRef 0 = ['s', 't', 'a', 's', 'h', '@', '{', '0', '}'] ∧
      stashRef 7 = ['s', 't', 'a', 's', 'h', '@', '{', '7', '}'] ∧
      stashRef 12 = ['s', 't', 'a', 's', 'h', '@', '{', '1', '2', '}'] := by
  decide

theorem parseStashLoop_nonblank :
    ∀ (lines : List Str) (i : Nat), (∀ l ∈ lines, TrimSpace l ≠ []) →
      (parseStashLoop i lines).length = lines.length ∧
        ∀ k (hk : k < lines.length), (parseStashLoop i lines)[k]? =
          some (stashEntryOfLine (i + k) (TrimSpace (lines.get ⟨k, hk⟩)))
  | [], i, _ => by simp [parseStashLoop]
  | l :: rest, i, h => by
    have hl : TrimSpace l ≠ [] := h l (by simp)
    have ih := parseStashLoop_nonblank rest (i + 1) (fun x hx => h x (List.mem_cons_of_mem l hx))
    simp only [parseStashLoop, hl, if_false, List.length_cons]
    refine ⟨by rw [ih.1], ?_⟩
    intro k hk
    cases k with
    | zero => simp
    | succ k =>
      have := ih.2 k (by simpa using hk)
      simp only [List.getElem?_cons_succ, this, List.get_cons_succ]
      congr 2
      omega

theorem wellFormed_nonblank (l : Str) (h : WellFormedStashLine l) : TrimSpace l ≠ [] := by
  obtain ⟨-, wip, label, branch, message, rfl⟩ := h
  refine TrimSpace_ne_nil _ ':' ?_ (by decide)
  simp [stashLine, colonSep]

theorem Join_ne_nil (sep : Str) : ∀ (pieces : List Str), (∃ p ∈ pieces, p ≠ []) →
    Join pieces sep ≠ []
  | [], h => by simp at h
  | [a], h => by simpa [Join] using h
  | a :: b :: rest, h => by
    by_cases ha : a = []
    · have : ∃ p ∈ b :: rest, p ≠ [] := by
        obtain ⟨p, hp, hne⟩ := h
        rcases List.mem_cons.mp hp with rfl | hp
        · exact absurd ha hne
        · exact ⟨p, hp, hne⟩
      have ih := Join_ne_nil sep (b :: rest) this
      simp [Join, ih]
    · simp [Join, ha]

/-- C6. For every listing of N >= 1 well-formed stash lines joined by single
newlines, `parseStashList` returns exactly N entries, in input order: entry k
(from 0) is the one built from line k, its `index` is k and its `ref` is the
text `stash@{k}`, that is `stash@`, an opening brace, the decimal digits of k
and a closing brace, whatever label the text of the line carries. -/
theorem parseStashList_positions (lines : List Str) (hne : lines ≠ [])
    (hwf : ∀ l ∈ lines, WellFormedStashLine l) :
    (parseStashList (Join lines ['\n'])).length = lines.length ∧
      ∀ k (hk : k < lines.length), ∃ e : stashEntry,
        (parseStashList (Join lines ['\n']))[k]? = some e ∧
          e = stashEntryOfLine k (TrimSpace (lines.get ⟨k, hk⟩)) ∧
          e.index = (k : Int) ∧
          e.ref = ['s', 't', 'a', 's', 'h', '@', '{'] ++ (Nat.repr k).toList ++ ['}'] := by
  have hnb : ∀ l ∈ lines, TrimSpace l ≠ [] := fun l hl => wellFormed_nonblank l (hwf l hl)
  have hraw : Join lines ['\n'] ≠ [] := by
    obtain ⟨l, rest, rfl⟩ := List.exists_cons_of_ne_nil hne
    refine Join_ne_nil _ _ ⟨l, by simp, ?_⟩
    intro h0
    exact hnb l (by simp) (by rw [h0]; rfl)
  have hsplit : Split (Join lines ['\n']) ['\n'] = lines :=
    Split_Join_char '\n' lines hne (fun l hl => (hwf l hl).1)
  have hloop := parseStashLoop_nonblank lines 0 hnb
  simp only [parseStashList, hraw, if_false, hsplit]
  refine ⟨hloop.1, ?_⟩
  intro k hk
  refine ⟨_, ?_, rfl, ?_⟩
  · have := hloop.2 k hk
    simpa using this
  · exact ⟨(stashEntryOfLine_index_ref k _).1,
      (stashEntryOfLine_index_ref k _).2.trans (stashRef_eq k)⟩

/-- C6 at a concrete input: the two lines of `demoListing`; the second line
carries the label `stash@{7}` and its entry has the ref `stash@{1}`. -/
theorem parseStashList_positions_witness :
    (parseStashList (Join demoListing ['\n'])).length = 2 ∧
      ∃ e : stashEntry, (parseStashList (Join demoListing ['\n']))[1]? = some e ∧
        e.index = 1 ∧ e.ref = ['s', 't', 'a', 's', 'h', '@', '{', '1', '}'] :=
  have h := parseStashList_positions demoListing (by decide) (by
    intro l hl
    simp only [demoListing, List.mem_cons, List.mem_singleton, List.not_mem_nil, or_false] at hl
    rcases hl with rfl | rfl
    · exact ⟨by decide, _, _, _, _, rfl⟩
    · exact ⟨by decide, _, _, _, _, rfl⟩)
  ⟨h.1, (h.2 1 (by decide)).imp fun _ he => ⟨he.1, he.2.2⟩⟩

theorem colonSep_not_infix_concat (a : Str) (h : ¬ colonSep <:+: a) :
    ¬ colonSep <:+: a ++ colonSep.dropLast := by
  have e : colonSep.dropLast = [':'] := rfl
  rw [e, List.infix_concat_iff]
  rintro (hs | hi)
  · rw [List.suffix_concat_iff] at hs
    rcases hs with h0 | ⟨t, ht, -⟩
    · exact absurd h0 (by decide)
    · have := congrArg List.getLast? ht
      simp [colonSep] at this
  · exact h hi

theorem colonSep_not_infix_text (wip : Bool) (b : Str) (h : ¬ colonSep <:+: b) :
    ¬ colonSep <:+: (if wip then wipText else onText) ++ b := by
  cases wip <;>
    simp [wipText, onText, colonSep, List.infix_cons_iff, List.cons_prefix_cons] <;>
    simpa [colonSep] using h

theorem SplitN_stashLine (wip : Bool) (label branch message : Str)
    (hlabel : ¬ colonSep <:+: label) (hbranch : ¬ colonSep <:+: branch) :
    SplitN (stashLine wip label branch message) [':', ' '] 3 =
      [label, (if wip then wipText else onText) ++ branch, message] := by
  have e1 : stashLine wip label branch message =
      label ++ colonSep ++ (((if wip then wipText else onText) ++ branch) ++ colonSep ++ message) := by
    simp [stashLine, List.append_assoc]
  have i1 := Index_append colonSep label
    (((if wip then wipText else onText) ++ branch) ++ colonSep ++ message) (by decide)
    (colonSep_not_infix_concat label hlabel)
  have i2 := Index_append colonSep ((if wip then wipText else onText) ++ branch) message
    (by decide) (colonSep_not_infix_concat _ (colonSep_not_infix_text wip branch hbranch))
  have h3 : SplitN (stashLine wip label branch message) [':', ' '] 3 =
      splitLoop colonSep 2 (stashLine wip label branch message) := by
    simp [SplitN, colonSep]
  rw [h3, e1, splitLoop_append _ _ _ _ i1, splitLoop_append _ _ _ _ i2]
  rfl

/-- C7, amended. For every label and branch that contain no `": "` and every
message, if the line `label: On branch: message` or
`label: WIP on branch: message` has no leading or trailing white space and no
line break and, in the `WIP on` form, the branch does not itself begin with
`"On "`, then `parseStashList` returns exactly one entry, with that branch
and that message (and index 0, ref `stash@{0}`). -/
theorem parseStashList_stashLine (wip : Bool) (label branch message : Str)
    (hlabel : ¬ colonSep <:+: label) (hbranch : ¬ colonSep <:+: branch)
    (hon : wip = true → ¬ onText <+: branch)
    (htrim : TrimSpace (stashLine wip label branch message) = stashLine wip label branch message)
    (hnl : '\n' ∉ stashLine wip label branch message) :
    parseStashList (stashLine wip label branch message) =
      [{ index := 0, ref := stashRef 0, branch := branch, message := message }] := by
  have hne : stashLine wip label branch message ≠ [] := by
    simp [stashLine, colonSep]
  simp only [parseStashList, hne, if_false, Split_single '\n' _ hnl, parseStashLoop, htrim,
    stashEntryOfLine, SplitN_stashLine wip label branch message hlabel hbranch]
  cases wip with
  | false =>
    simp [TrimPrefix, HasPrefix, onText, wipText]
  | true =>
    have h2 : ¬ (['O', 'n', ' '] : Str).isPrefixOf branch = true := by
      rw [List.isPrefixOf_iff_prefix]; exact hon rfl
    simp [TrimPrefix, HasPrefix, wipText, h2]


/-- C7 fails as stated: for the label `stash@{0}`, the branch `On x` and the
message `m`, all within the conditions of the claim, the line
`stash@{0}: WIP on On x: m` gives the branch `x`, because `"On "` is stripped
after `"WIP on "`. -/
theorem parseStashList_stashLine_counterexample :
    ¬ colonSep <:+: stashRef 0 ∧ ¬ colonSep <:+: ['O', 'n', ' ', 'x'] ∧
      TrimSpace (stashLine true (stashRef 0) ['O', 'n', ' ', 'x'] ['m']) =
        stashLine true (stashRef 0) ['O', 'n', ' ', 'x'] ['m'] ∧
      '\n' ∉ stashLine true (stashRef 0) ['O', 'n', ' ', 'x'] ['m'] ∧
      parseStashList (stashLine true (stashRef 0) ['O', 'n', ' ', 'x'] ['m']) =
        [{ index := 0, ref := stashRef 0, branch := ['x'], message := ['m'] }] ∧
      (['x'] : Str) ≠ ['O', 'n', ' ', 'x'] := by
  decide

/-- C7, amended, at a concrete input: `stash@{0}: On main: fix: bug`. -/
theorem parseStashList_stashLine_witness :
    parseStashList (stashLine false (stashRef 0) ['m', 'a', 'i', 'n'] ['f', 'i', 'x', ':', ' ', 'b', 'u', 'g']) =
      [{ index := 0, ref := stashRef 0, branch := ['m', 'a', 'i', 'n'],
         message := ['f', 'i', 'x', ':', ' ', 'b', 'u', 'g'] }] :=
  parseStashList_stashLine false (stashRef 0) ['m', 'a', 'i', 'n'] ['f', 'i', 'x', ':', ' ', 'b', 'u', 'g']
    (by decide) (by decide) (by decide) (by decide) (by decide)

theorem indexFrom_ge (sep : Str) : ∀ (s : Str) (i : Nat),
    indexFrom sep s i = -1 ∨ (i : Int) ≤ indexFrom sep s i
  | [], i => by
    unfold indexFrom
    split <;> simp
  | c :: cs, i => by
    unfold indexFrom
    split
    · exact Or.inr (le_refl _)
    · rcases indexFrom_ge sep cs (i + 1) with h | h
      · exact Or.inl h
      · refine Or.inr (le_trans ?_ h)
        push_cast
        omega

theorem Index_nonneg (s sep : Str) (h : Index s sep ≠ -1) : ¬ Index s sep < 0 := by
  rcases indexFrom_ge sep s 0 with h1 | h1
  · exact absurd h1 h
  · unfold Index
    simp at h1
    omega

/-- C8, amended. For every non-blank line without line break: when the
trimmed line contains no `": "`, `parseStashList` gives one entry whose
message is the whole trimmed line; when it contains exactly one, the message
is the text after that separator; the branch is empty in both cases. -/
theorem parseStashList_few_separators (line : Str) (hnl : '\n' ∉ line) (hnb : TrimSpace line ≠ []) :
    (Count (TrimSpace line) colonSep = 0 →
      parseStashList line =
        [{ index := 0, ref := stashRef 0, branch := [], message := TrimSpace line }]) ∧
    (Count (TrimSpace line) colonSep = 1 →
      parseStashList line =
        [{ index := 0, ref := stashRef 0, branch := [],
           message := (TrimSpace line).drop ((Index (TrimSpace line) colonSep).toNat + 2) }]) := by
  have hne : line ≠ [] := by
    intro h0; exact hnb (by rw [h0]; rfl)
  have hsplit : SplitN (TrimSpace line) [':', ' '] 3 = splitLoop colonSep 2 (TrimSpace line) := by
    simp [SplitN, colonSep]
  obtain ⟨n, hn⟩ : ∃ n, (TrimSpace line).length = n + 1 :=
    ⟨(TrimSpace line).length - 1, by have := List.length_pos.mpr hnb; omega⟩
  have hcount : Count (TrimSpace line) colonSep
      = if Index (TrimSpace line) colonSep = -1 then 0
        else 1 + (if Index ((TrimSpace line).drop
            ((Index (TrimSpace line) colonSep).toNat + 2)) colonSep = -1 then 0
          else 1 + countLoop colonSep n (((TrimSpace line).drop
            ((Index (TrimSpace line) colonSep).toNat + 2)).drop
              ((Index ((TrimSpace line).drop
                ((Index (TrimSpace line) colonSep).toNat + 2)) colonSep).toNat + 2))) := by
    simp only [Count, hn, countLoop]
    simp [colonSep]
  simp only [parseStashList, hne, if_false, Split_single '\n' _ hnl, parseStashLoop, hnb,
    stashEntryOfLine, hsplit]
  constructor
  · intro h0
    have hi : Index (TrimSpace line) colonSep = -1 := by
      by_contra hc
      rw [hcount, if_neg hc] at h0
      omega
    rw [splitLoop_of_index_neg _ _ _ hi]
    rfl
  · intro h1
    have hi : Index (TrimSpace line) colonSep ≠ -1 := by
      intro hc
      rw [hcount, if_pos hc] at h1
      omega
    have hi2 : Index ((TrimSpace line).drop
        ((Index (TrimSpace line) colonSep).toNat + 2)) colonSep = -1 := by
      by_contra hc
      rw [hcount, if_neg hi, if_neg hc] at h1
      omega
    have hlen : colonSep.length = 2 := rfl
    simp only [splitLoop, Index_nonneg _ _ hi, if_false, hlen, hi2]
    simp

/-- C8 fails as stated: the line `a: b` contains one separator and its entry
has the message `b`, not the whole line. -/
theorem parseStashList_few_separators_counterexample :
    '\n' ∉ (['a', ':', ' ', 'b'] : Str) ∧ TrimSpace ['a', ':', ' ', 'b'] = ['a', ':', ' ', 'b'] ∧
      Count (TrimSpace ['a', ':', ' ', 'b']) colonSep = 1 ∧
      parseStashList ['a', ':', ' ', 'b'] =
        [{ index := 0, ref := stashRef 0, branch := [], message := ['b'] }] ∧
      (['b'] : Str) ≠ TrimSpace ['a', ':', ' ', 'b'] := by
  decide

/-- C8, amended, at a concrete input: the line `a: b`. -/
theorem parseStashList_few_separators_witness :
    parseStashList ['a', ':', ' ', 'b'] =
      [{ index := 0, ref := stashRef 0, branch := [], message := ['b'] }] :=
  (parseStashList_few_separators ['a', ':', ' ', 'b'] (by decide) (by decide)).2 (by decide)

theorem TrimSpace_append_eq_self (a b : Str) (ha : a.dropWhile isSpace = a ∧ a ≠ [])
    (hb : TrimSpace b = b) (hbne : b ≠ []) : TrimSpace (a ++ b) = a ++ b := by
  rw [TrimSpace_eq_self_iff]
  obtain ⟨c, cs, rfl⟩ := List.exists_cons_of_ne_nil ha.2
  have hc : isSpace c = false := by
    have := ha.1
    rw [List.dropWhile_eq_self_iff] at this
    simpa using this (by simp)
  constructor
  · simp [List.dropWhile_cons, hc]
  · rw [List.rdropWhile_eq_self_iff]
    intro hl
    have hlast := (List.rdropWhile_eq_self_iff.mp ((TrimSpace_eq_self_iff b).mp hb).2) hbne
    rwa [List.getLast_append_of_ne_nil hbne]

/-- C9. For every status field that begins with `R` (the rest of the field
holding no tab and no line break, as a similarity suffix does) and all names
`old` and `new` free of tabs and line breaks, `new` being non-empty and
without surrounding white space, `parseFileList` applied to the line
`status<TAB>old<TAB>new` returns exactly one entry, with the status `R` and
the name `old -> new`.  The conditions of the claim on `old` (non-empty, no
surrounding white space) are not needed. -/
theorem parseFileList_rename (sfx old new : Str)
    (hs1 : '\t' ∉ sfx) (hs2 : '\n' ∉ sfx) (ho1 : '\t' ∉ old) (ho2 : '\n' ∉ old)
    (hn0 : new ≠ []) (hn1 : '\t' ∉ new) (hn2 : '\n' ∉ new) (hn3 : TrimSpace new = new) :
    parseFileList (('R' :: sfx) ++ ['\t'] ++ old ++ ['\t'] ++ new) =
      [{ status := ['R'], name := old ++ arrowSep ++ new, added := 0, removed := 0 }] := by
  have hne : ('R' :: sfx) ++ ['\t'] ++ old ++ ['\t'] ++ new ≠ [] := by simp
  have hnl : '\n' ∉ ('R' :: sfx) ++ ['\t'] ++ old ++ ['\t'] ++ new := by
    simp [hs2, ho2, hn2]
  have htrim : TrimSpace (('R' :: sfx) ++ ['\t'] ++ old ++ ['\t'] ++ new) =
      ('R' :: sfx) ++ ['\t'] ++ old ++ ['\t'] ++ new := by
    refine TrimSpace_append_eq_self _ _ ⟨?_, by simp⟩ hn3 hn0
    have : isSpace 'R' = false := by decide
    simp [List.dropWhile_cons, this]
  have hsp := Split_three '\t' ('R' :: sfx) old new (by simp [hs1]) ho1 hn1
  simp only [parseFileList, hne, if_false, Split_single '\n' _ hnl, parseFileLoop, htrim, hsp]
  simp [HasPrefix, arrowSep]

/-- C9 at a concrete input: the line `R100<TAB>old.txt<TAB>new.txt`. -/
theorem parseFileList_rename_witness :
    parseFileList ['R', '1', '0', '0', '\t', 'o', 'l', 'd', '.', 't', 'x', 't', '\t',
        'n', 'e', 'w', '.', 't', 'x', 't'] =
      [{ status := ['R'],
         name := ['o', 'l', 'd', '.', 't', 'x', 't', ' ', '-', '>', ' ', 'n', 'e', 'w', '.',
           't', 'x', 't'],
         added := 0, removed := 0 }] :=
  parseFileList_rename ['1', '0', '0'] ['o', 'l', 'd', '.', 't', 'x', 't']
    ['n', 'e', 'w', '.', 't', 'x', 't'] (by decide) (by decide) (by decide) (by decide)
    (by decide) (by decide) (by decide) (by decide)

theorem le_decimalFrom (ds : Str) : ∀ n : Nat, n ≤ decimalFrom n ds := by
  induction ds with
  | nil => intro n; simp [decimalFrom]
  | cons c cs ih =>
    intro n
    have := ih (n * 10 + digitValue c)
    simp only [decimalFrom, List.foldl_cons] at this ⊢
    omega

theorem parseUintLoop_eq : ∀ (s : Str) (n : Nat),
    decimalFrom n (s.takeWhile isDigit) < 2 ^ 64 →
      parseUintLoop n s =
        if s.all isDigit then (decimalFrom n s, none) else (0, some NumError.errSyntax)
  | [], n, _ => by simp [parseUintLoop, decimalFrom]
  | c :: cs, n, h => by
    by_cases hc : isDigit c = true
    · have hd : digitValue c = c.toNat - 48 := rfl
      have h1 : decimalFrom (n * 10 + digitValue c) (cs.takeWhile isDigit) < 2 ^ 64 := by
        simpa [List.takeWhile_cons, hc, decimalFrom] using h
      have h2 := le_decimalFrom (cs.takeWhile isDigit) (n * 10 + digitValue c)
      have ih := parseUintLoop_eq cs (n * 10 + digitValue c) h1
      have hlt : n * 10 + (c.toNat - 48) < 2 ^ 64 := by rw [← hd]; omega
      have hmod : (n * 10 + (c.toNat - 48)) % 2 ^ 64 = n * 10 + (c.toNat - 48) :=
        Nat.mod_eq_of_lt hlt
      have hcut : ¬ n ≥ (2 ^ 64 - 1) / 10 + 1 := by omega
      have hov : ¬ (n * 10 + (c.toNat - 48) < n * 10 ∨ n * 10 + (c.toNat - 48) > 2 ^ 64 - 1) := by
        omega
      simp only [parseUintLoop, hc, if_true, hcut, if_false, hmod, hov]
      rw [← hd, ih]
      simp [List.all_cons, hc, decimalFrom]
    · simp [parseUintLoop, hc, List.all_cons]

/-- What `strconv.Atoi` returns on a field that fits a 64-bit `int`: the value
of a decimal integer, and 0 for any other text. -/
theorem Atoi_eq_statValue (f : Str) (h : fitsInt f) : (Atoi f).1 = statValue f := by
  cases f with
  | nil => rfl
  | cons c cs =>
    unfold fitsInt at h
    by_cases hne : unsignedPart (c :: cs) = []
    · have hd : isDecimalInteger (c :: cs) = false := by simp [isDecimalInteger, hne]
      have hb : (if c = '+' ∨ c = '-' then cs else c :: cs) = [] := hne
      simp [Atoi, ParseInt, hb, ParseUint, statValue, hd]
    · by_cases hall : (unsignedPart (c :: cs)).all isDigit = true
      · have hd : isDecimalInteger (c :: cs) = true := by
          simp only [isDecimalInteger, hall, Bool.and_true, Bool.not_eq_true',
            List.isEmpty_eq_false]
          simpa using hne
        rw [if_pos hd] at h
        have htw : (unsignedPart (c :: cs)).takeWhile isDigit = unsignedPart (c :: cs) := by
          rw [List.takeWhile_eq_self_iff]
          simpa using hall
        have hb : (if c = '+' ∨ c = '-' then cs else c :: cs) = unsignedPart (c :: cs) := rfl
        have hdv : decimalValue (c :: cs) =
            if c = '-' then -(decimalFrom 0 cs : Int)
            else (decimalFrom 0 (unsignedPart (c :: cs)) : Int) := rfl
        have hlt : decimalFrom 0 (unsignedPart (c :: cs)) < 2 ^ 64 := by
          by_cases hm : c = '-'
          · have hu : unsignedPart (c :: cs) = cs := by simp [unsignedPart, hm]
            rw [hdv, if_pos hm] at h
            rw [hu]
            omega
          · rw [hdv, if_neg hm] at h
            omega
        have hloop : ParseUint (unsignedPart (c :: cs)) =
            (decimalFrom 0 (unsignedPart (c :: cs)), none) := by
          unfold ParseUint
          rw [if_neg hne, parseUintLoop_eq _ 0 (by rw [htw]; exact hlt), if_pos hall]
        simp only [Atoi, ParseInt, hb, hloop, statValue, hd, if_true]
        by_cases hm : c = '-'
        · have hu : unsignedPart (c :: cs) = cs := by simp [unsignedPart, hm]
          rw [hdv, if_pos hm] at h
          rw [hdv, if_pos hm, hu]
          simp only [hm, decide_True, not_true_eq_false, false_and, if_false, true_and, if_true]
          rw [if_neg (by omega)]
        · rw [hdv, if_neg hm] at h
          rw [hdv, if_neg hm]
          simp only [hm, decide_False, Bool.false_eq_true, not_false_eq_true, true_and,
            false_and, if_false]
          rw [if_neg (by omega)]
      · have hd : isDecimalInteger (c :: cs) = false := by
          simp only [isDecimalInteger, Bool.and_eq_false_iff]
          exact Or.inr (by simpa using hall)
        rw [if_neg (by simp [hd])] at h
        have hb : (if c = '+' ∨ c = '-' then cs else c :: cs) = unsignedPart (c :: cs) := rfl
        have hloop : ParseUint (unsignedPart (c :: cs)) = (0, some NumError.errSyntax) := by
          unfold ParseUint
          rw [if_neg hne, parseUintLoop_eq _ 0 h, if_neg hall]
        simp [Atoi, ParseInt, hb, hloop, statValue, hd]


/-- C10, amended. For every numeric-stats line `added<TAB>removed<TAB>name`
whose fields hold no tab, that has no line break and no leading or trailing
white space (so `added` and `name` are not empty), and whose two numeric
fields fit a 64-bit `int` (`fitsInt`), `parseNumstat` returns the map with
the single key `name`, bound to the pair whose components are the integer
value of the field when it is a decimal integer and 0 when it is not. -/
theorem parseNumstat_line (added removed name : Str)
    (ha : '\t' ∉ added) (hr : '\t' ∉ removed) (hn : '\t' ∉ name)
    (hnl : '\n' ∉ added ++ ['\t'] ++ removed ++ ['\t'] ++ name)
    (htrim : TrimSpace (added ++ ['\t'] ++ removed ++ ['\t'] ++ name) =
      added ++ ['\t'] ++ removed ++ ['\t'] ++ name)
    (hfa : fitsInt added) (hfr : fitsInt removed) :
    parseNumstat (added ++ ['\t'] ++ removed ++ ['\t'] ++ name) =
        [(name, (statValue added, statValue removed))] ∧
      (parseNumstat (added ++ ['\t'] ++ removed ++ ['\t'] ++ name)).get? name =
        some (statValue added, statValue removed) := by
  have hne : added ++ ['\t'] ++ removed ++ ['\t'] ++ name ≠ [] := by simp
  have hsp := Split_three '\t' added removed name ha hr hn
  have hval : parseNumstat (added ++ ['\t'] ++ removed ++ ['\t'] ++ name) =
      [(name, (statValue added, statValue removed))] := by
    simp only [parseNumstat, hne, if_false, Split_single '\n' _ hnl, parseNumstatLoop, htrim,
      hsp, Atoi_eq_statValue added hfa, Atoi_eq_statValue removed hfr]
    simp [StatMap.set]
  refine ⟨hval, ?_⟩
  rw [hval]
  simp [StatMap.get?]

/-- C10 fails as stated.  The line `<TAB>5<TAB>f`, whose first field is empty
(no decimal integer), is dropped: the map has no key `f`.  And the field
`99999999999999999999`, a decimal integer, is read as `2^63 - 1`, not as its
value. -/
theorem parseNumstat_line_counterexample :
    (parseNumstat ([] ++ ['\t'] ++ ['5'] ++ ['\t'] ++ ['f']) = [] ∧
      (parseNumstat ([] ++ ['\t'] ++ ['5'] ++ ['\t'] ++ ['f'])).get? ['f'] = none) ∧
    (isDecimalInteger ['9', '9', '9', '9', '9', '9', '9', '9', '9', '9', '9', '9', '9', '9', '9',
        '9', '9', '9', '9', '9'] = true ∧
      parseNumstat (['9', '9', '9', '9', '9', '9', '9', '9', '9', '9', '9', '9', '9', '9', '9',
        '9', '9', '9', '9', '9'] ++ ['\t'] ++ ['1'] ++ ['\t'] ++ ['f']) =
        [(['f'], (9223372036854775807, 1))] ∧
      decimalValue ['9', '9', '9', '9', '9', '9', '9', '9', '9', '9', '9', '9', '9', '9', '9',
        '9', '9', '9', '9', '9'] = 99999999999999999999) := by
  decide

/-- C10, amended, at a concrete input: the binary-file line
`-<TAB>-<TAB>b.bin`. -/
theorem parseNumstat_line_witness :
    parseNumstat (['-'] ++ ['\t'] ++ ['-'] ++ ['\t'] ++ ['b', '.', 'b', 'i', 'n']) =
      [(['b', '.', 'b', 'i', 'n'], (0, 0))] :=
  (parseNumstat_line ['-'] ['-'] ['b', '.', 'b', 'i', 'n'] (by decide) (by decide) (by decide)
    (by decide) (by decide) (by decide) (by decide)).1

/-! ## The apply flow for a renamed file -/

theorem arrowSep_not_infix_concat (a : Str) (h : ¬ arrowSep <:+: a)
    (hend : ¬ [' ', '-', '>'] <:+ a) : ¬ arrowSep <:+: a ++ arrowSep.dropLast := by
  have e : a ++ arrowSep.dropLast = ((a ++ [' ']) ++ ['-']) ++ ['>'] := by
    simp [arrowSep]
  have hs : ∀ (l : Str) (x : Char), x ≠ ' ' → ¬ arrowSep <:+ l ++ [x] := by
    intro l x hx hsuf
    rw [List.suffix_concat_iff] at hsuf
    rcases hsuf with h0 | ⟨t, ht, -⟩
    · exact absurd h0 (by decide)
    · have := congrArg List.getLast? ht
      simp [arrowSep] at this
      exact hx this.symm
  rw [e, List.infix_concat_iff]
  rintro (h1 | h1)
  · exact hs _ '>' (by decide) h1
  · rw [List.infix_concat_iff] at h1
    rcases h1 with h2 | h2
    · exact hs _ '-' (by decide) h2
    · rw [List.infix_concat_iff] at h2
      rcases h2 with h3 | h3
      · rw [List.suffix_concat_iff] at h3
        rcases h3 with h0 | ⟨t, ht, hta⟩
        · exact absurd h0 (by decide)
        · have ht2 : t = [' ', '-', '>'] := by
            have : arrowSep = [' ', '-', '>'] ++ [' '] := rfl
            rw [this] at ht
            exact (List.append_inj_left' ht rfl).symm
          exact hend (ht2 ▸ hta)
      · exact h h3

/-- The path `applyFile` resolves from `old -> new` is `new` when the first
`" -> "` of the label is the one written after `old`. -/
theorem applyFileArgs_renamed (ref old new : Str) (h : ¬ arrowSep <:+: old)
    (hend : ¬ [' ', '-', '>'] <:+ old) :
    applyFileArgs ref (old ++ arrowSep ++ new) = checkoutArgs ref new := by
  have hi := Index_append arrowSep old new (by decide) (arrowSep_not_infix_concat old h hend)
  have hi2 : Index (old ++ [' ', '-', '>', ' '] ++ new) [' ', '-', '>', ' '] = (old.length : Int) := hi
  have hne : ¬ ((old.length : Int) = -1) := by omega
  have hd := drop_append_sep old arrowSep new
  have hlen : arrowSep.length = 4 := rfl
  rw [hlen] at hd
  simp only [applyFileArgs, checkoutArgs, arrowSep, hi2, ne_eq, hne, not_false_eq_true, if_true,
    Int.toNat_ofNat]
  rw [show old ++ [' ', '-', '>', ' '] ++ new = old ++ arrowSep ++ new from rfl, hd]

theorem Update_confirm_yes {W : Widgets} (m : model W) (k : KeyMsg)
    (hc : m.confirming = true) (hk : k.str = ['y']) :
    (Update m (Msg.KeyMsg k)).2 =
      some (Cmd.applyCmd m.confirmScope m.confirmRef m.confirmFile m.confirmLabel) := by
  obtain ⟨m1, hm1, hc1, -, -, -, -, -, -, -, -, -, -, h1, h2, h3, h4⟩ := clearSuccess_fields m
  simp only [Update, updateKey]
  rw [← hm1, if_pos (by rw [hc1]; exact hc)]
  simp [updateConfirm, hk, h1, h2, h3, h4]

theorem Update_ctrlK_diffView {W : Widgets} (m : model W) (k : KeyMsg)
    (hs : m.state = viewState.diffView) (hl : m.loading = false) (hc : m.confirming = false)
    (hk : k.str = keyCtrlK) :
    (Update m (Msg.KeyMsg k)).1.confirming = true ∧
      (Update m (Msg.KeyMsg k)).1.confirmScope = applyScope.applySingleFile ∧
      (Update m (Msg.KeyMsg k)).1.confirmRef = m.activeStash.ref ∧
      (Update m (Msg.KeyMsg k)).1.confirmFile = m.activeFile ∧
      (Update m (Msg.KeyMsg k)).1.confirmLabel =
        ['A', 'p', 'p', 'l', 'y', ' '] ++ m.activeStash.ref ++ [' ', 't', 'o', ' '] ++
          m.activeFile ∧
      (Update m (Msg.KeyMsg k)).2 = none := by
  obtain ⟨m1, hm1, hc1, hl1, hs1, -, -, -, -, -, has, haf, -⟩ := clearSuccess_fields m
  have hU : Update m (Msg.KeyMsg k) = startConfirm m1 := by
    simp only [Update, updateKey]
    rw [← hm1]
    rw [hc] at hc1
    rw [hl] at hl1
    simp [hc1, hl1, hk, keyCtrlK]
  rw [hs] at hs1
  rw [hU]
  simp [startConfirm, hs1, has, haf]

/-- The apply flow for a renamed file whose label is cut at the right place.
For every model in `diffView` that is not loading and not
confirming, with `activeFile = old ++ " -> " ++ new` where `old` contains no
`" -> "` and does not end with `" ->"`: the key `ctrl+k` opens the
confirmation with the scope `applySingleFile`, `confirmRef = activeStash.ref`
and `confirmFile = activeFile`; the key `y` that follows returns the command
that calls `applyFile(activeStash.ref, activeFile)`; and `applyFile` gives
git the arguments `checkout <ref> -- new`, the path being exactly `new`. -/
theorem apply_renamed_file {W : Widgets} (m : model W) (old new : Str) (k1 k2 : KeyMsg)
    (hs : m.state = viewState.diffView) (hl : m.loading = false) (hc : m.confirming = false)
    (hf : m.activeFile = old ++ arrowSep ++ new)
    (hold : ¬ arrowSep <:+: old) (hend : ¬ [' ', '-', '>'] <:+ old)
    (hk1 : k1.str = keyCtrlK) (hk2 : k2.str = ['y']) :
    (Update m (Msg.KeyMsg k1)).1.confirming = true ∧
      (Update m (Msg.KeyMsg k1)).1.confirmScope = applyScope.applySingleFile ∧
      (Update m (Msg.KeyMsg k1)).1.confirmRef = m.activeStash.ref ∧
      (Update m (Msg.KeyMsg k1)).1.confirmFile = m.activeFile ∧
      (∃ label, (Update (Update m (Msg.KeyMsg k1)).1 (Msg.KeyMsg k2)).2 =
        some (Cmd.applyCmd applyScope.applySingleFile m.activeStash.ref m.activeFile label)) ∧
      Option.bind (Update (Update m (Msg.KeyMsg k1)).1 (Msg.KeyMsg k2)).2 Cmd.call =
        some (DataCall.applyFile m.activeStash.ref m.activeFile) ∧
      applyFileArgs m.activeStash.ref m.activeFile = checkoutArgs m.activeStash.ref new := by
  obtain ⟨h1, h2, h3, h4, -, -⟩ := Update_ctrlK_diffView m k1 hs hl hc hk1
  have hy := Update_confirm_yes (Update m (Msg.KeyMsg k1)).1 k2 h1 hk2
  rw [h2, h3, h4] at hy
  refine ⟨h1, h2, h3, h4, ⟨_, hy⟩, ?_, ?_⟩
  · rw [hy]; rfl
  · rw [hf]; exact applyFileArgs_renamed _ old new hold hend

/-- The apply flow at a concrete input: the file `o.t -> n.t` of
`demoStash`. -/
theorem apply_renamed_file_witness :
    Option.bind (Update (Update (demoDiffModel (['o', '.', 't'] ++ arrowSep ++ ['n', '.', 't']))
        (Msg.KeyMsg (keyOf keyCtrlK))).1 (Msg.KeyMsg (keyOf ['y']))).2 Cmd.call =
        some (DataCall.applyFile (stashRef 0) (['o', '.', 't'] ++ arrowSep ++ ['n', '.', 't'])) ∧
      applyFileArgs (stashRef 0) (['o', '.', 't'] ++ arrowSep ++ ['n', '.', 't']) =
        checkoutArgs (stashRef 0) ['n', '.', 't'] :=
  (apply_renamed_file (demoDiffModel (['o', '.', 't'] ++ arrowSep ++ ['n', '.', 't']))
    ['o', '.', 't'] ['n', '.', 't'] (keyOf keyCtrlK) (keyOf ['y'])
    rfl rfl rfl rfl (by decide) (by decide) rfl rfl).2.2.2.2.2

/-- C5, the code at the failing input.  The rename of the file `a ->` to `n.t`
is listed as `R100<TAB>a -><TAB>n.t` and parsed to the entry named
`a -> -> n.t`; the old name `a ->` contains no `" -> "`.  In the diff view of
that file, `ctrl+k` followed by `y` returns the command that calls
`applyFile(stash@{0}, "a -> -> n.t")`, and `applyFile` gives git the path
`-> n.t`, which is not the new name `n.t`: the label is cut at its first
`" -> "`, which starts inside the old name.  The same cut sends the modified
file `x -> y`, listed as `M<TAB>x -> y`, to the path `y`. -/
theorem apply_renamed_file_failing_input :
    parseFileList ['R', '1', '0', '0', '\t', 'a', ' ', '-', '>', '\t', 'n', '.', 't'] =
        [{ status := ['R'], name := ['a', ' ', '-', '>'] ++ arrowSep ++ ['n', '.', 't'],
           added := 0, removed := 0 }] ∧
      ¬ arrowSep <:+: ['a', ' ', '-', '>'] ∧
      (demoDiffModel (['a', ' ', '-', '>'] ++ arrowSep ++ ['n', '.', 't'])).state =
        viewState.diffView ∧
      (demoDiffModel (['a', ' ', '-', '>'] ++ arrowSep ++ ['n', '.', 't'])).loading = false ∧
      (demoDiffModel (['a', ' ', '-', '>'] ++ arrowSep ++ ['n', '.', 't'])).confirming = false ∧
      Option.bind (Update (Update
          (demoDiffModel (['a', ' ', '-', '>'] ++ arrowSep ++ ['n', '.', 't']))
          (Msg.KeyMsg (keyOf keyCtrlK))).1 (Msg.KeyMsg (keyOf ['y']))).2 Cmd.call =
        some (DataCall.applyFile (stashRef 0)
          (['a', ' ', '-', '>'] ++ arrowSep ++ ['n', '.', 't'])) ∧
      applyFileArgs (stashRef 0) (['a', ' ', '-', '>'] ++ arrowSep ++ ['n', '.', 't']) =
        checkoutArgs (stashRef 0) ['-', '>', ' ', 'n', '.', 't'] ∧
      applyFileArgs (stashRef 0) (['a', ' ', '-', '>'] ++ arrowSep ++ ['n', '.', 't']) ≠
        checkoutArgs (stashRef 0) ['n', '.', 't'] ∧
      parseFileList ['M', '\t', 'x', ' ', '-', '>', ' ', 'y'] =
        [{ status := ['M'], name := ['x', ' ', '-', '>', ' ', 'y'], added := 0, removed := 0 }] ∧
      applyFileArgs (stashRef 0) ['x', ' ', '-', '>', ' ', 'y'] =
        checkoutArgs (stashRef 0) ['y'] := by
  decide

/-! ## The back intent -/

theorem Update_esc_fileList {W : Widgets} (m : model W) (k : KeyMsg)
    (hl : m.loading = false) (hc : m.confirming = false) (hh : m.showHelp = false)
    (hk : k.str = keyEsc) (hs : m.state = viewState.fileListView)
    (hf : W.listFilterState m.fileList ≠ FilterState.Filtering) :
    (Update m (Msg.KeyMsg k)).1.state = viewState.stashListView ∧
      (Update m (Msg.KeyMsg k)).1.files = m.files ∧
      (Update m (Msg.KeyMsg k)).1.activeStash = m.activeStash ∧
      (Update m (Msg.KeyMsg k)).1.err = none ∧
      (Update m (Msg.KeyMsg k)).2 = none := by
  obtain ⟨m1, hm1, hc1, hl1, hs1, hf1, -, hh1, -, hfl1, has1, -⟩ := clearSuccess_fields m
  simp only [Update, updateKey]
  rw [← hm1]
  rw [hc] at hc1
  rw [hl] at hl1
  rw [hh] at hh1
  rw [hs] at hs1
  by_cases he : m1.err ≠ none
  · simp [hc1, hl1, hh1, hs1, hk, keyEsc, updateForState, updateFileList, hfl1, hf, hf1, has1, he]
  · simp [hc1, hl1, hh1, hs1, hk, keyEsc, updateForState, updateFileList, hfl1, hf, hf1, has1, he]

theorem Update_esc_diffView {W : Widgets} (m : model W) (k : KeyMsg)
    (hl : m.loading = false) (hc : m.confirming = false) (hh : m.showHelp = false)
    (hk : k.str = keyEsc) (hs : m.state = viewState.diffView) :
    (Update m (Msg.KeyMsg k)).1.state = viewState.fileListView ∧
      (Update m (Msg.KeyMsg k)).1.diffContent = m.diffContent ∧
      (Update m (Msg.KeyMsg k)).1.files = m.files ∧
      (Update m (Msg.KeyMsg k)).1.activeFile = m.activeFile ∧
      (Update m (Msg.KeyMsg k)).1.err = none ∧
      (Update m (Msg.KeyMsg k)).2 = none := by
  obtain ⟨m1, hm1, hc1, hl1, hs1, hf1, hd1, hh1, -, -, -, haf1, -⟩ := clearSuccess_fields m
  simp only [Update, updateKey]
  rw [← hm1]
  rw [hc] at hc1
  rw [hl] at hl1
  rw [hh] at hh1
  rw [hs] at hs1
  by_cases he : m1.err ≠ none
  · simp [hc1, hl1, hh1, hs1, hk, keyEsc, updateForState, updateDiffView, hf1, hd1, haf1, he]
  · simp [hc1, hl1, hh1, hs1, hk, keyEsc, updateForState, updateDiffView, hf1, hd1, haf1, he]

/-- C14, amended. For every model that is not loading, not confirming and not
showing help, the key `esc` moves up exactly one level and keeps the data of
the level left: in `fileListView` (list not filtering) the result has the
state `stashListView`, with `files` and `activeStash` unchanged; in `diffView`
the result has the state `fileListView`, with `diffContent`, `files` and
`activeFile` unchanged; in both cases the error is cleared and no command is
returned. -/
theorem back_keeps_data {W : Widgets} (m : model W) (k : KeyMsg)
    (hl : m.loading = false) (hc : m.confirming = false) (hh : m.showHelp = false)
    (hk : k.str = keyEsc) :
    (m.state = viewState.fileListView →
      W.listFilterState m.fileList ≠ FilterState.Filtering →
        (Update m (Msg.KeyMsg k)).1.state = viewState.stashListView ∧
          (Update m (Msg.KeyMsg k)).1.files = m.files ∧
          (Update m (Msg.KeyMsg k)).1.activeStash = m.activeStash ∧
          (Update m (Msg.KeyMsg k)).1.err = none ∧
          (Update m (Msg.KeyMsg k)).2 = none) ∧
    (m.state = viewState.diffView →
      (Update m (Msg.KeyMsg k)).1.state = viewState.fileListView ∧
        (Update m (Msg.KeyMsg k)).1.diffContent = m.diffContent ∧
        (Update m (Msg.KeyMsg k)).1.files = m.files ∧
        (Update m (Msg.KeyMsg k)).1.activeFile = m.activeFile ∧
        (Update m (Msg.KeyMsg k)).1.err = none ∧
        (Update m (Msg.KeyMsg k)).2 = none) :=
  ⟨fun hs hf => Update_esc_fileList m k hl hc hh hk hs hf,
   fun hs => Update_esc_diffView m k hl hc hh hk hs⟩

/-- C14 fails as stated: `esc` in the file list of `demoStash` leaves its one
file in `files`, and `esc` in a diff view leaves the diff text in
`diffContent`; neither is emptied. -/
theorem back_keeps_data_counterexample :
    (demoFileListModel.loading = false ∧ demoFileListModel.confirming = false ∧
      demoFileListModel.showHelp = false ∧
      demoFileListModel.state = viewState.fileListView ∧
      demoWidgets.listFilterState demoFileListModel.fileList ≠ FilterState.Filtering ∧
      (Update demoFileListModel (Msg.KeyMsg (keyOf keyEsc))).1.files = demoFiles ∧
      demoFiles ≠ []) ∧
    ((demoDiffModel ['a', '.', 't', 'x', 't']).loading = false ∧
      (demoDiffModel ['a', '.', 't', 'x', 't']).confirming = false ∧
      (demoDiffModel ['a', '.', 't', 'x', 't']).showHelp = false ∧
      (demoDiffModel ['a', '.', 't', 'x', 't']).state = viewState.diffView ∧
      (Update (demoDiffModel ['a', '.', 't', 'x', 't'])
        (Msg.KeyMsg (keyOf keyEsc))).1.diffContent = ['+', 'x'] ∧
      (['+', 'x'] : Str) ≠ []) := by
  decide

/-- C14, amended, at a concrete input: `esc` in the file list of
`demoStash`. -/
theorem back_keeps_data_witness :
    (Update demoFileListModel (Msg.KeyMsg (keyOf keyEsc))).1.state = viewState.stashListView ∧
      (Update demoFileListModel (Msg.KeyMsg (keyOf keyEsc))).1.files = demoFiles :=
  have h := (back_keeps_data demoFileListModel (keyOf keyEsc) rfl rfl rfl rfl).1 rfl (by decide)
  ⟨h.1, h.2.1⟩

/-! ## The merge step of `loadFiles` -/

theorem mergeStats_eq_map (stats : StatMap) :
    ∀ entries : List fileEntry, mergeStats stats entries = entries.map (mergeEntry stats)
  | [] => rfl
  | e :: rest => by
    have ih := mergeStats_eq_map stats rest
    have key : mergeStats stats (e :: rest) =
        (match stats.get? (statsKey e.name) with
          | some s => { e with added := s.1, removed := s.2 } :: mergeStats stats rest
          | none => e :: mergeStats stats rest) := rfl
    rw [key, ih, List.map_cons]
    unfold mergeEntry
    cases stats.get? (statsKey e.name) <;> rfl

theorem statsKey_renamed (old new : Str) (h : ¬ arrowSep <:+: old)
    (hend : ¬ [' ', '-', '>'] <:+ old) : statsKey (old ++ arrowSep ++ new) = new := by
  have hi := Index_append arrowSep old new (by decide) (arrowSep_not_infix_concat old h hend)
  have hne : ¬ ((old.length : Int) = -1) := by omega
  have hd := drop_append_sep old arrowSep new
  have hlen : arrowSep.length = 4 := rfl
  rw [hlen] at hd
  simp only [statsKey, hi, ne_eq, hne, not_false_eq_true, if_true, Int.toNat_ofNat, hd]

theorem statsKey_plain (name : Str) (h : ¬ arrowSep <:+: name) : statsKey name = name := by
  have hi := Index_of_not_infix arrowSep name (by decide) h
  simp [statsKey, hi]

theorem mergeEntry_fields (stats : StatMap) (e : fileEntry) :
    (mergeEntry stats e).status = e.status ∧ (mergeEntry stats e).name = e.name ∧
      (∀ v, stats.get? (statsKey e.name) = some v →
        (mergeEntry stats e).added = v.1 ∧ (mergeEntry stats e).removed = v.2) ∧
      (stats.get? (statsKey e.name) = none → mergeEntry stats e = e) := by
  unfold mergeEntry
  split <;> rename_i h <;> simp [h]

theorem parseFileLoop_zero : ∀ (lines : List Str), ∀ e ∈ parseFileLoop lines,
    e.added = 0 ∧ e.removed = 0
  | [], e, he => by simp [parseFileLoop] at he
  | l :: rest, e, he => by
    have ih := parseFileLoop_zero rest
    unfold parseFileLoop at he
    simp only at he
    split at he
    · exact ih e he
    · split at he
      · split at he
        · rcases List.mem_cons.mp he with rfl | he
          · exact ⟨rfl, rfl⟩
          · exact ih e he
        · rcases List.mem_cons.mp he with rfl | he
          · exact ⟨rfl, rfl⟩
          · exact ih e he
      · exact ih e he

theorem parseFileList_zero (raw : Str) : ∀ e ∈ parseFileList raw, e.added = 0 ∧ e.removed = 0 := by
  intro e he
  unfold parseFileList at he
  split at he
  · simp at he
  · exact parseFileLoop_zero _ e he

/-- The merge step of `loadFiles` where the label is cut at the right place.
For every list of entries and every statistics map: the merged list has the same length, and its entry
at each position is the entry at that position merged (`mergeEntry`), with
the same status and name.  An entry whose name is `old ++ " -> " ++ new`,
where `old` contains no `" -> "` and does not end with `" ->"`, receives
`added` and `removed` from the statistics keyed on `new`; an entry without
`" -> "` receives them from the key equal to its name; an entry with no
matching key is kept as it is, and the entries `parseFileList` returns have
`added = removed = 0`. -/
theorem mergeStats_by_new_name (stats : StatMap) (entries : List fileEntry) :
    (mergeStats stats entries).length = entries.length ∧
    (∀ (i : Nat) (hi : i < entries.length), ∃ e1 : fileEntry,
      (mergeStats stats entries)[i]? = some e1 ∧
      e1 = mergeEntry stats (entries.get ⟨i, hi⟩) ∧
      e1.status = (entries.get ⟨i, hi⟩).status ∧ e1.name = (entries.get ⟨i, hi⟩).name ∧
      (∀ old new : Str, (entries.get ⟨i, hi⟩).name = old ++ arrowSep ++ new →
        ¬ arrowSep <:+: old → ¬ [' ', '-', '>'] <:+ old →
          (∀ v, stats.get? new = some v → e1.added = v.1 ∧ e1.removed = v.2) ∧
            (stats.get? new = none → e1 = entries.get ⟨i, hi⟩)) ∧
      (¬ arrowSep <:+: (entries.get ⟨i, hi⟩).name →
        (∀ v, stats.get? (entries.get ⟨i, hi⟩).name = some v →
            e1.added = v.1 ∧ e1.removed = v.2) ∧
          (stats.get? (entries.get ⟨i, hi⟩).name = none → e1 = entries.get ⟨i, hi⟩))) ∧
    (∀ raw : Str, ∀ e ∈ parseFileList raw, e.added = 0 ∧ e.removed = 0) := by
  refine ⟨by rw [mergeStats_eq_map, List.length_map], ?_, parseFileList_zero⟩
  intro i hi
  have hf := mergeEntry_fields stats (entries.get ⟨i, hi⟩)
  refine ⟨mergeEntry stats (entries.get ⟨i, hi⟩), ?_, rfl, hf.1, hf.2.1, ?_, ?_⟩
  · rw [mergeStats_eq_map, List.getElem?_map, List.getElem?_eq_getElem hi]
    rfl
  · intro old new hname hold hend
    have hk : statsKey (entries.get ⟨i, hi⟩).name = new := by
      rw [hname]; exact statsKey_renamed old new hold hend
    rw [hk] at hf
    exact hf.2.2
  · intro hplain
    have hk := statsKey_plain _ hplain
    rw [hk] at hf
    exact hf.2.2

/-- The merge step at a concrete input: the renamed entry `o.t -> n.t` and
the statistics `3, 1` keyed on `n.t`. -/
theorem mergeStats_by_new_name_witness :
    ∃ e1 : fileEntry, (mergeStats demoStats demoRenamedFiles)[0]? = some e1 ∧
      e1.added = 3 ∧ e1.removed = 1 :=
  ((mergeStats_by_new_name demoStats demoRenamedFiles).2.1 0 (by decide)).imp fun _ h =>
    ⟨h.1, (h.2.2.2.2.1 ['o', '.', 't'] ['n', '.', 't'] (by decide) (by decide) (by decide)).1
      (3, 1) (by decide)⟩

/-- C11, the code at the failing input.  The rename of the file `a -> b` to
`c` is listed as `R100<TAB>a -> b<TAB>c` and parsed to the entry named
`a -> b -> c`; the statistics parsed from `1<TAB>2<TAB>c` hold `(1, 2)` under
the new name `c`.  The merge looks up `b -> c`, the text after the first
`" -> "` of the label, finds nothing and leaves the entry at `(0, 0)`
instead of giving it `(1, 2)`.  And a rename whose statistics line carries
the name `o.t => n.t` is stored under that text, so the lookup of `n.t`
misses as well. -/
theorem mergeStats_by_new_name_failing_input :
    parseFileList ['R', '1', '0', '0', '\t', 'a', ' ', '-', '>', ' ', 'b', '\t', 'c'] =
        [{ status := ['R'], name := ['a', ' ', '-', '>', ' ', 'b'] ++ arrowSep ++ ['c'],
           added := 0, removed := 0 }] ∧
      StatMap.get? (parseNumstat ['1', '\t', '2', '\t', 'c']) ['c'] = some (1, 2) ∧
      mergeStats (parseNumstat ['1', '\t', '2', '\t', 'c'])
          (parseFileList ['R', '1', '0', '0', '\t', 'a', ' ', '-', '>', ' ', 'b', '\t', 'c']) =
        [{ status := ['R'], name := ['a', ' ', '-', '>', ' ', 'b'] ++ arrowSep ++ ['c'],
           added := 0, removed := 0 }] ∧
      statsKey (['a', ' ', '-', '>', ' ', 'b'] ++ arrowSep ++ ['c']) =
        ['b', ' ', '-', '>', ' ', 'c'] ∧
      parseNumstat ['1', '\t', '0', '\t', 'o', '.', 't', ' ', '=', '>', ' ', 'n', '.', 't'] =
        [(['o', '.', 't', ' ', '=', '>', ' ', 'n', '.', 't'], (1, 0))] ∧
      mergeStats
          (parseNumstat ['1', '\t', '0', '\t', 'o', '.', 't', ' ', '=', '>', ' ', 'n', '.', 't'])
          demoRenamedFiles =
        [{ status := ['R'], name := ['o', '.', 't'] ++ arrowSep ++ ['n', '.', 't'],
           added := 0, removed := 0 }] := by
  decide

/-! ## The event loop: one task in flight, the pending action -/

theorem dataTask_none {W : Widgets} : dataTask (none : Option (Cmd W)) = [] := rfl

theorem dataTask_quit {W : Widgets} : dataTask (some (Cmd.Quit : Cmd W)) = [] := rfl

theorem dataTask_map_widget {W : Widgets} (c : Option W.WidgetCmd) :
    dataTask (c.map (Cmd.widget : W.WidgetCmd → Cmd W)) = [] := by
  cases c <;> rfl

theorem dataTask_applyCmd {W : Widgets} (scope : applyScope) (ref file label : Str) :
    dataTask (some (Cmd.applyCmd scope ref file label : Cmd W)) =
      [Cmd.applyCmd scope ref file label] := by
  cases scope <;> rfl

theorem stepOutcome_startConfirm {W : Widgets} (m : model W) (hl : m.loading = false) :
    stepOutcome (startConfirm m) := by
  unfold startConfirm
  split
  · split <;> exact Or.inl ⟨rfl, hl⟩
  · exact Or.inl ⟨rfl, hl⟩
  · exact Or.inl ⟨rfl, hl⟩

theorem stepOutcome_updateForState {W : Widgets} (m : model W) (k : KeyMsg)
    (hl : m.loading = false) (hc : m.confirming = false) :
    stepOutcome (updateForState m k) := by
  unfold updateForState
  split
  · unfold updateStashList
    split
    · split
      · exact Or.inr ⟨_, rfl, rfl, hc⟩
      · exact Or.inl ⟨rfl, hl⟩
    · split
      · exact Or.inl ⟨rfl, hl⟩
      · exact Or.inl ⟨dataTask_map_widget _, hl⟩
  · unfold updateFileList
    split
    · split
      · exact Or.inr ⟨_, rfl, rfl, hc⟩
      · exact Or.inl ⟨rfl, hl⟩
    · split
      · exact Or.inl ⟨rfl, hl⟩
      · exact Or.inl ⟨dataTask_map_widget _, hl⟩
  · unfold updateDiffView
    split
    · exact Or.inl ⟨rfl, hl⟩
    · exact Or.inl ⟨dataTask_map_widget _, hl⟩

theorem stepOutcome_updateConfirm {W : Widgets} (m : model W) (k : KeyMsg)
    (hl : m.loading = false) : stepOutcome (updateConfirm m k) := by
  unfold updateConfirm
  split
  · exact Or.inr ⟨_, dataTask_applyCmd _ _ _ _, rfl, rfl⟩
  · split
    · exact Or.inl ⟨rfl, hl⟩
    · exact Or.inl ⟨rfl, hl⟩

theorem stepOutcome_key_idle {W : Widgets} (m : model W) (k : KeyMsg) (hl : m.loading = false) :
    stepOutcome (Update m (Msg.KeyMsg k)) := by
  obtain ⟨m1, hm1, hc1, hl1, -⟩ := clearSuccess_fields m
  rw [hl] at hl1
  simp only [Update, updateKey]
  rw [← hm1]
  by_cases hconf : m1.confirming = true
  · rw [if_pos hconf]
    exact stepOutcome_updateConfirm m1 k hl1
  · rw [if_neg hconf]
    have hcf : m1.confirming = false := by simpa using hconf
    split_ifs <;>
      first
        | exact Or.inl ⟨rfl, hl1⟩
        | exact stepOutcome_startConfirm m1 hl1
        | exact stepOutcome_updateForState _ k hl1 hcf

theorem Update_key_busy {W : Widgets} (m : model W) (k : KeyMsg) (hl : m.loading = true)
    (hc : m.confirming = false) :
    (Update m (Msg.KeyMsg k)).1.loading = true ∧
      (Update m (Msg.KeyMsg k)).1.confirming = false ∧
      dataTask (Update m (Msg.KeyMsg k)).2 = [] := by
  obtain ⟨m1, hm1, hc1, hl1, -⟩ := clearSuccess_fields m
  rw [hl] at hl1
  rw [hc] at hc1
  simp only [Update, updateKey]
  rw [← hm1]
  rw [if_neg (by simp [hc1])]
  split_ifs <;> exact ⟨hl1, hc1, rfl⟩

theorem Update_window {W : Widgets} (m : model W) (w h : Int) :
    (Update m (Msg.WindowSizeMsg w h)).1.loading = m.loading ∧
      (Update m (Msg.WindowSizeMsg w h)).1.confirming = m.confirming ∧
      (Update m (Msg.WindowSizeMsg w h)).2 = none := by
  simp only [Update]
  split
  · split <;> exact ⟨rfl, rfl, rfl⟩
  · exact ⟨rfl, rfl, rfl⟩

theorem Update_completion {W : Widgets} (m : model W) (c : Cmd W) (msg : Msg)
    (h : completionOf c msg) :
    (Update m msg).1.loading = false ∧ (Update m msg).2 = none := by
  cases msg with
  | WindowSizeMsg w h => cases c <;> exact absurd h (by simp [completionOf])
  | KeyMsg k => cases c <;> exact absurd h (by simp [completionOf])
  | other t => cases c <;> exact absurd h (by simp [completionOf])
  | stashesLoadedMsg stashes err =>
    simp only [Update]; split <;> exact ⟨rfl, rfl⟩
  | filesLoadedMsg fs err =>
    simp only [Update]; split <;> exact ⟨rfl, rfl⟩
  | diffLoadedMsg d f err =>
    simp only [Update]; split <;> exact ⟨rfl, rfl⟩
  | applyResultMsg err label =>
    simp only [Update]; split <;> exact ⟨rfl, rfl⟩

theorem Update_busy_no_task {W : Widgets} (m : model W) (msg : Msg) (hl : m.loading = true)
    (hc : m.confirming = false) : dataTask (Update m msg).2 = [] := by
  cases msg with
  | WindowSizeMsg w h => rw [(Update_window m w h).2.2]; rfl
  | KeyMsg k => exact (Update_key_busy m k hl hc).2.2
  | other t => simp [Update, hl, dataTask]
  | stashesLoadedMsg stashes err =>
    simp only [Update]; split <;> rfl
  | filesLoadedMsg fs err =>
    simp only [Update]; split <;> rfl
  | diffLoadedMsg d f err =>
    simp only [Update]; split <;> rfl
  | applyResultMsg err label =>
    simp only [Update]; split <;> rfl

/-- Every reachable state satisfies the invariant of the event loop. -/
theorem flightInvariant_of_reachable {W : Widgets} (s : Sys W) (h : Reachable s) :
    flightInvariant s := by
  induction h with
  | init => exact Or.inr ⟨Cmd.loadStashesCmd, rfl, rfl, rfl⟩
  | key s k _ ih =>
    rcases ih with ⟨hT, hl⟩ | ⟨c, hT, hl, hc⟩
    · rcases stepOutcome_key_idle s.1 k hl with ⟨h1, h2⟩ | ⟨c, h1, h2, h3⟩
      · exact Or.inl ⟨by simp [stepKey, hT, h1], h2⟩
      · exact Or.inr ⟨c, by simp [stepKey, hT, h1], h2, h3⟩
    · obtain ⟨h1, h2, h3⟩ := Update_key_busy s.1 k hl hc
      exact Or.inr ⟨c, by simp [stepKey, hT, h3], h1, h2⟩
  | window s w h _ ih =>
    obtain ⟨h1, h2, h3⟩ := Update_window s.1 w h
    rcases ih with ⟨hT, hl⟩ | ⟨c, hT, hl, hc⟩
    · exact Or.inl ⟨by simp [stepWindow, hT, h3, dataTask], by simp [stepWindow, h1, hl]⟩
    · exact Or.inr ⟨c, by simp [stepWindow, hT, h3, dataTask], by simp [stepWindow, h1, hl],
        by simp [stepWindow, h2, hc]⟩
  | deliver s before after c msg _ hT hmsg ih =>
    obtain ⟨h1, h2⟩ := Update_completion s.1 c msg hmsg
    rcases ih with ⟨hT0, _⟩ | ⟨c0, hT0, _, _⟩
    · rw [hT0] at hT
      simp at hT
    · rw [hT0] at hT
      have hlen := congrArg List.length hT
      simp at hlen
      have hb : before = [] := List.length_eq_zero.mp (by omega)
      have ha : after = [] := List.length_eq_zero.mp (by omega)
      exact Or.inl ⟨by simp [stepDeliver, hb, ha, h2, dataTask], h1⟩

/-- C12. In every state reachable from `initialModel`, with the task started
by `Init` in flight, by key presses, window-size messages and deliveries of
the completion message of a task in flight: at most one data-source task is
in flight; a task is in flight only while `loading` is true; `confirming` and
`loading` are not both true; and `Update` returns a data-source command only
when `loading` is false. -/
theorem single_flight {W : Widgets} (s : Sys W) (h : Reachable s) :
    s.2.length ≤ 1 ∧ (s.2 ≠ [] → s.1.loading = true) ∧
      ¬ (s.1.confirming = true ∧ s.1.loading = true) ∧
      (∀ msg : Msg, dataTask (Update s.1 msg).2 ≠ [] → s.1.loading = false) := by
  rcases flightInvariant_of_reachable s h with ⟨hT, hl⟩ | ⟨c, hT, hl, hc⟩
  · refine ⟨by simp [hT], fun hne => absurd hT hne, ?_, fun _ _ => hl⟩
    rintro ⟨-, h2⟩
    rw [hl] at h2
    exact Bool.false_ne_true h2
  · refine ⟨by simp [hT], fun _ => hl, ?_, ?_⟩
    · rintro ⟨h1, -⟩
      rw [hc] at h1
      exact Bool.false_ne_true h1
    · intro msg hne
      exact absurd (Update_busy_no_task s.1 msg hl hc) hne

theorem demoSys2_reachable : Reachable demoSys2 :=
  Reachable.key _ _ (Reachable.deliver demoSys0 [] [] Cmd.loadStashesCmd
    (Msg.stashesLoadedMsg [demoStash] none) Reachable.init rfl trivial)

/-- C12 at a concrete input: the state after the stashes were delivered and
`enter` was pressed, with the file-listing task in flight. -/
theorem single_flight_witness :
    Reachable demoSys2 ∧ demoSys2.2.length = 1 ∧ demoSys2.1.loading = true ∧
      demoSys2.1.confirming = false :=
  have h := single_flight demoSys2 demoSys2_reachable
  ⟨demoSys2_reachable, rfl, h.2.1 (List.ne_nil_of_length_pos (by decide)), rfl⟩


/-- The message a closure returns when it is run is a completion message of
that closure. -/
theorem completionOf_run {W : Widgets} (env : GitEnv) (c : Cmd W) (msg : Msg)
    (h : Cmd.run env c = some msg) : completionOf c msg := by
  cases c with
  | Quit => simp [Cmd.run] at h
  | widget x => simp [Cmd.run] at h
  | loadStashesCmd =>
    simp only [Cmd.run] at h
    split at h <;> (injection h with h; subst h; trivial)
  | loadFilesCmd ref =>
    simp only [Cmd.run] at h
    split at h <;> (injection h with h; subst h; trivial)
  | loadDiffCmd ref file =>
    simp only [Cmd.run] at h
    split at h <;> (injection h with h; subst h; rfl)
  | applyCmd scope ref file label =>
    simp only [Cmd.run] at h
    injection h with h; subst h; rfl

theorem confirmFile_startConfirm {W : Widgets} (m : model W)
    (h : m.state ≠ viewState.diffView) : (startConfirm m).1.confirmFile = m.confirmFile := by
  unfold startConfirm
  split
  · split <;> rfl
  · rfl
  · rename_i hs; exact absurd hs h

theorem confirmFile_updateForState {W : Widgets} (m : model W) (k : KeyMsg) :
    (updateForState m k).1.confirmFile = m.confirmFile := by
  unfold updateForState
  split
  · unfold updateStashList
    split
    · split <;> rfl
    · split <;> rfl
  · unfold updateFileList
    split
    · split <;> rfl
    · split <;> rfl
  · unfold updateDiffView
    split <;> rfl

/-- The only step that writes `confirmFile` is the key `ctrl+k` handled in
the diff view. -/
theorem confirmFile_unchanged {W : Widgets} (m : model W) (msg : Msg)
    (h : ∀ k, msg = Msg.KeyMsg k → ¬ (k.str = keyCtrlK ∧ m.state = viewState.diffView)) :
    (Update m msg).1.confirmFile = m.confirmFile := by
  cases msg with
  | WindowSizeMsg w h =>
    simp only [Update]
    split
    · split <;> rfl
    · rfl
  | stashesLoadedMsg stashes err => simp only [Update]; split <;> rfl
  | filesLoadedMsg fs err => simp only [Update]; split <;> rfl
  | diffLoadedMsg d f err => simp only [Update]; split <;> rfl
  | applyResultMsg err label => simp only [Update]; split <;> rfl
  | other t =>
    simp only [Update]
    split
    · unfold updateSubview
      split <;> rfl
    · rfl
  | KeyMsg k =>
    have hk := h k rfl
    obtain ⟨m1, hm1, -, -, hs1, -, -, -, -, -, -, -, -, -, -, hcf1, -⟩ := clearSuccess_fields m
    simp only [Update, updateKey]
    rw [← hm1, ← hcf1]
    split_ifs with h1 h2 h3 h4 h5
    · unfold updateConfirm
      split_ifs <;> rfl
    · rfl
    · rfl
    · rfl
    · rfl
    · refine confirmFile_startConfirm m1 ?_
      rw [hs1]
      exact fun hd => hk ⟨h5, hd⟩
    all_goals first | rfl | exact confirmFile_updateForState _ k

theorem reachable_of_beforeFileRequest {W : Widgets} (s : Sys W)
    (h : ReachableBeforeFileRequest s) : Reachable s := by
  induction h with
  | init => exact Reachable.init
  | key s k _ _ ih => exact Reachable.key s k ih
  | window s w h _ ih => exact Reachable.window s w h ih
  | deliver s before after c msg _ hT hmsg ih => exact Reachable.deliver s before after c msg ih hT hmsg

theorem confirmFile_empty_beforeFileRequest {W : Widgets} (s : Sys W)
    (h : ReachableBeforeFileRequest s) : s.1.confirmFile = [] := by
  induction h with
  | init => rfl
  | key s k _ hk ih =>
    have := confirmFile_unchanged s.1 (Msg.KeyMsg k) (by
      intro k1 hk1
      injection hk1 with hk1
      subst hk1
      exact hk)
    simp only [stepKey, this, ih]
  | window s w h _ ih =>
    have := confirmFile_unchanged s.1 (Msg.WindowSizeMsg w h) (by intro k1 hk1; cases hk1)
    simp only [stepWindow, this, ih]
  | deliver s before after c msg _ hT hmsg ih =>
    have := confirmFile_unchanged s.1 msg (by
      intro k1 hk1
      subst hk1
      cases c <;> exact absurd hmsg (by simp [completionOf]))
    simp only [stepDeliver, this, ih]

theorem Update_confirmed {W : Widgets} (m : model W) (k : KeyMsg)
    (hc : m.confirming = true) (hk : k.str = ['y'] ∨ k.str = ['Y']) :
    (Update m (Msg.KeyMsg k)).2 =
      some (Cmd.applyCmd m.confirmScope m.confirmRef m.confirmFile m.confirmLabel) := by
  obtain ⟨m1, hm1, hc1, -, -, -, -, -, -, -, -, -, -, h1, h2, h3, h4⟩ := clearSuccess_fields m
  simp only [Update, updateKey]
  rw [← hm1, if_pos (by rw [hc1]; exact hc)]
  simp [updateConfirm, hk, h1, h2, h3, h4]

/-- C13, amended. In every state in which `confirming` is true and
`confirmScope` is `applyWholeStash`: if the state was reached from
`initialModel` without an apply request made from the diff view,
`confirmFile` is the empty string; and in any case `confirmFile` is not used,
the key `y` or `Y` returning the command that calls
`applyStash(confirmRef)`. -/
theorem wholeStash_confirmFile_unused {W : Widgets} (s : Sys W)
    (hc : s.1.confirming = true) (hs : s.1.confirmScope = applyScope.applyWholeStash) :
    (ReachableBeforeFileRequest s → s.1.confirmFile = []) ∧
    (∀ k : KeyMsg, (k.str = ['y'] ∨ k.str = ['Y']) →
      (∃ label, (Update s.1 (Msg.KeyMsg k)).2 =
        some (Cmd.applyCmd applyScope.applyWholeStash s.1.confirmRef s.1.confirmFile label)) ∧
      Option.bind (Update s.1 (Msg.KeyMsg k)).2 Cmd.call =
        some (DataCall.applyStash s.1.confirmRef)) := by
  refine ⟨confirmFile_empty_beforeFileRequest s, ?_⟩
  intro k hk
  have h := Update_confirmed s.1 k hc hk
  rw [hs] at h
  exact ⟨⟨_, h⟩, by rw [h]; rfl⟩

theorem demoSys5_reachable : Reachable demoSys5 :=
  Reachable.deliver _ [] [] (Cmd.loadDiffCmd (stashRef 0) ['a', '.', 't', 'x', 't'])
    (Msg.diffLoadedMsg ['+', 'x'] ['a', '.', 't', 'x', 't'] none)
    (Reachable.key _ (keyOf keyEnter)
      (Reachable.deliver demoSys2 [] [] (Cmd.loadFilesCmd (stashRef 0))
        (Msg.filesLoadedMsg demoFiles none) demoSys2_reachable rfl trivial))
    rfl rfl

theorem demoSys9_reachable : Reachable demoSys9 :=
  Reachable.key _ _ (Reachable.key _ _ (Reachable.key _ _ (Reachable.key _ _ demoSys5_reachable)))

/-- C13 fails as stated: after an apply request for the file `a.txt` in the
diff view, cancelled with `n`, and `esc` back to the file list, the key
`ctrl+k` opens the confirmation for the whole stash while `confirmFile` still
is `a.txt`. -/
theorem wholeStash_confirmFile_unused_counterexample :
    Reachable demoSys9 ∧ demoSys9.1.confirming = true ∧
      demoSys9.1.confirmScope = applyScope.applyWholeStash ∧
      demoSys9.1.confirmFile = ['a', '.', 't', 'x', 't'] ∧
      (['a', '.', 't', 'x', 't'] : Str) ≠ [] :=
  ⟨demoSys9_reachable, by decide, by decide, by decide, by decide⟩

theorem demoConfirming_beforeFileRequest :
    ReachableBeforeFileRequest (stepKey (stepDeliver demoSys0 []
      (Msg.stashesLoadedMsg [demoStash] none)) (keyOf keyCtrlK)) :=
  ReachableBeforeFileRequest.key _ _
    (ReachableBeforeFileRequest.deliver demoSys0 [] [] Cmd.loadStashesCmd
      (Msg.stashesLoadedMsg [demoStash] none) ReachableBeforeFileRequest.init rfl trivial)
    (by decide)

/-- C13, amended, at a concrete input: `ctrl+k` in the stash list right after
the stashes were delivered. -/
theorem wholeStash_confirmFile_unused_witness :
    (stepKey (stepDeliver demoSys0 [] (Msg.stashesLoadedMsg [demoStash] none))
        (keyOf keyCtrlK)).1.confirmFile = [] ∧
      Option.bind (Update (stepKey (stepDeliver demoSys0 []
        (Msg.stashesLoadedMsg [demoStash] none)) (keyOf keyCtrlK)).1
          (Msg.KeyMsg (keyOf ['y']))).2 Cmd.call =
        some (DataCall.applyStash (stashRef 0)) :=
  have h := wholeStash_confirmFile_unused
    (stepKey (stepDeliver demoSys0 [] (Msg.stashesLoadedMsg [demoStash] none)) (keyOf keyCtrlK))
    rfl rfl
  ⟨h.1 demoConfirming_beforeFileRequest, (h.2 (keyOf ['y']) (Or.inl rfl)).2⟩

end StashExplorer
